import Mathlib

/-!
Verification of the host-side quiz synchronization engine embedded in
`src/generate.py` (the JavaScript between lines ~1265 and ~2030 of the
generated page).  The host browser owns the player registry, the per-question
vote tally, the answer order used for the speed bonus, the reconnection
side-table and the phase progression; every definition below is a direct
functional transcription of those JavaScript functions.

Modelling conventions:
  * JavaScript objects keyed by connection id or by player name become
    association lists (`List (κ × α)`); JS object keys are unique, a fresh
    assignment appends at the end (insertion order) and an assignment to an
    existing key updates in place, which `aupdate` reproduces.
  * The `votes` object is keyed by numeric option index; JS iterates integer
    keys in ascending numeric order, so `votes` is kept as an assoc list
    sorted by key (`votePush` inserts in order).
  * Milliseconds are `Nat`; `answerTime` is `Option Nat` (`none` = JS null).
  * `Math.round` on the non-negative scores involved is `⌊x + 1/2⌋` over `ℚ`.
-/

/-- One entry of `p.answers` as pushed by `hostReveal`
(`{question, picked, correct, right}`). -/
structure AnswerRec where
  question : String
  picked : String
  correct : String
  right : Bool
  deriving Repr, DecidableEq

/-- A host-side player record (`players[connId]` in `generate.py`):
`{ name, score, answered, correct_count, answers }` plus the `answerTime`
field attached on the first answer. -/
structure Player where
  name : String
  score : Nat
  answered : Bool
  answerTime : Option Nat
  correct_count : Nat
  answers : List AnswerRec
  deriving Repr, DecidableEq

/-- The fields of a `QUESTIONS[i]` entry that the engine reads
(`question`, `options`, `correct`); the display-only fields (reveal text,
ranking table, chart reference) are never touched by the engine. -/
structure Question where
  question : String
  options : List String
  correct : Nat
  deriving Repr, DecidableEq

/-- The host-side mutable state of `generate.py`
(the `let` declarations at lines 1265-1279). -/
structure HostState where
  players : List (Nat × Player)
  currentQ : Nat
  votes : List (Nat × List String)
  answerOrder : List Nat
  quizStarted : Bool
  disconnectedPlayers : List (String × Player)
  answersLocked : Bool
  lastEarned : List (Nat × Nat)
  halftimeShown : Bool
  deriving Repr, DecidableEq

/-- The initial values of the host globals. -/
def initialHostState : HostState :=
  { players := [], currentQ := 0, votes := [], answerOrder := []
  , quizStarted := false, disconnectedPlayers := [], answersLocked := false
  , lastEarned := [], halftimeShown := false }

/-- JS object lookup `obj[k]` (keys are unique, first match is the match). -/
def alookup {α : Type} [BEq α] {β : Type} (k : α) : List (α × β) → Option β
  | [] => none
  | (k', v) :: rest => if k' == k then some v else alookup k rest

/-- JS object assignment `obj[k] = v`: update in place when `k` exists,
append at the end otherwise. -/
def aupdate {α : Type} [BEq α] {β : Type} (k : α) (v : β) :
    List (α × β) → List (α × β)
  | [] => [(k, v)]
  | (k', v') :: rest =>
      if k' == k then (k, v) :: rest else (k', v') :: aupdate k v rest

/-- JS `delete obj[k]`. -/
def aerase {α : Type} [BEq α] {β : Type} (k : α) :
    List (α × β) → List (α × β)
  | [] => []
  | (k', v') :: rest =>
      if k' == k then rest else (k', v') :: aerase k rest

/-- `if (!votes[optIdx]) votes[optIdx] = []; votes[optIdx].push(p.name)`,
keeping the assoc list sorted by numeric key as JS iteration order does. -/
def votePush (k : Nat) (name : String) :
    List (Nat × List String) → List (Nat × List String)
  | [] => [(k, [name])]
  | (k', ns) :: rest =>
      if k' = k then (k', ns ++ [name]) :: rest
      else if k < k' then (k, [name]) :: (k', ns) :: rest
      else (k', ns) :: votePush k name rest

/-- The vote-removal loop of `handleHostMessage` for a changed answer:
for every bucket, `splice` out the first occurrence of the name. -/
def removeNameAll (name : String) (vs : List (Nat × List String)) :
    List (Nat × List String) :=
  vs.map (fun b => (b.1, b.2.erase name))

/-- The scan in `hostReveal` that recovers a player's vote from the frozen
tally: iterate buckets in ascending key order, the last bucket containing the
name wins, `-1` when the name is nowhere. -/
def findVote (vs : List (Nat × List String)) (name : String) : Int :=
  vs.foldl (fun acc b => if name ∈ b.2 then (b.1 : Int) else acc) (-1)

/-- How many times a name occurs across all tally buckets. -/
def nameCount (vs : List (Nat × List String)) (name : String) : Nat :=
  (vs.map (fun b => b.2.count name)).sum

/-- `const TIMER_DURATION = 30; // seconds per question` -/
def TIMER_DURATION : Nat := 30

/-- JavaScript `Math.round` on the non-negative values used here. -/
def jsRound (x : ℚ) : Int := ⌊x + 1 / 2⌋

/-- The time-based base score of `hostReveal`:
`Math.round(500 + 500 * (1 - Math.min(elapsed / (TIMER_DURATION*1000), 1)))`.
Written with exact natural-number division so that the kernel can evaluate it;
`scoreFormula_eq_jsRound` below proves it equal to the literal rounded
rational formula of the source. -/
def scoreFormula (elapsedMs : Nat) : Nat :=
  if TIMER_DURATION * 1000 ≤ elapsedMs then 500
  else 500 + (1000 * (TIMER_DURATION * 1000 - elapsedMs) + TIMER_DURATION * 1000)
        / (2 * (TIMER_DURATION * 1000))

/-- `const elapsed = p.answerTime || (TIMER_DURATION * 1000);` — JS `||`
replaces both `null` and the falsy number `0` by the full budget. -/
def elapsedOf : Option Nat → Nat
  | none => TIMER_DURATION * 1000
  | some 0 => TIMER_DURATION * 1000
  | some e => e

/-- The messages `handleHostMessage` dispatches on (`data.type`). -/
inductive HostMsg where
  | join (name : String)
  | answer (option : Nat)
  deriving Repr, DecidableEq

/-- `handleHostMessage(conn, data)` (lines 1473-1521).  `conn` is the
connection id, `elapsedNow` stands for `Date.now() - questionStartTime` at the
moment an answer is processed.  Join: merge from the disconnected side-table
when the name is there, otherwise a brand-new zero-score record.  Answer:
dropped when `answersLocked` or the connection is not registered; a changed
answer is first spliced out of every bucket and filtered out of
`answerOrder`, then the new vote is pushed and, when correct, appended to
`answerOrder`. -/
def handleHostMessage (qs : List Question) (conn : Nat) (msg : HostMsg)
    (elapsedNow : Nat) (s : HostState) : HostState :=
  match msg with
  | .join name =>
      match alookup name s.disconnectedPlayers with
      | some p =>
          { s with players := aupdate conn p s.players
                 , disconnectedPlayers := aerase name s.disconnectedPlayers }
      | none =>
          let fresh : Player :=
            { name := name, score := 0, answered := false
            , answerTime := none, correct_count := 0, answers := [] }
          { s with players := aupdate conn fresh s.players }
  | .answer optIdx =>
      if s.answersLocked then s
      else
        match alookup conn s.players with
        | none => s
        | some p =>
            let votes1 := if p.answered then removeNameAll p.name s.votes else s.votes
            let ao1 := if p.answered then s.answerOrder.filter (fun i => i ≠ conn)
                       else s.answerOrder
            let p1 : Player := { p with answered := true, answerTime := some elapsedNow }
            let votes2 := votePush optIdx p.name votes1
            let ao2 := if (qs.get? s.currentQ).map Question.correct = some optIdx
                       then ao1 ++ [conn] else ao1
            { s with players := aupdate conn p1 s.players
                   , votes := votes2, answerOrder := ao2 }

/-- The `conn.on('close', ...)` handler installed in `startHost`
(lines 1452-1461): preserve the record in the side-table keyed by name, then
delete the live entry.  The tally and `answerOrder` are not touched. -/
def handleClose (conn : Nat) (s : HostState) : HostState :=
  match alookup conn s.players with
  | none => s
  | some p =>
      { s with disconnectedPlayers := aupdate p.name p s.disconnectedPlayers
             , players := aerase conn s.players }

/-- The timer-expiry callback of `hostSendQuestion`: `answersLocked = true`. -/
def lockAnswers (s : HostState) : HostState :=
  { s with answersLocked := true }

/-- `hostSendQuestion()` state effects (lines 1558-1595): reset the tally,
the answer order, the per-round earned map and the lock flag, and clear every
live player's `answered`/`answerTime`. -/
def hostSendQuestion (s : HostState) : HostState :=
  { s with votes := [], answerOrder := [], lastEarned := []
         , answersLocked := false
         , players := s.players.map
             (fun cp => (cp.1, { cp.2 with answered := false, answerTime := none })) }

/-- `hostStartQuiz()`: cursor to 0, mark started, send the first question. -/
def hostStartQuiz (s : HostState) : HostState :=
  hostSendQuestion { s with currentQ := 0, quizStarted := true }

/-- The per-player body of the `Object.entries(players).forEach` loop in
`hostReveal` (lines 1615-1641): scan the frozen tally for the player's vote,
score a correct vote by response time plus the first-in-`answerOrder` bonus,
and push the answer record.  Returns the updated record and the earned
points stored into `lastEarned`. -/
def revealPlayer (q : Question) (ao : List Nat) (vs : List (Nat × List String))
    (conn : Nat) (p : Player) : Player × Nat :=
  let playerVote := findVote vs p.name
  let wasCorrect := playerVote = (q.correct : Int)
  let earned :=
    if wasCorrect then
      scoreFormula (elapsedOf p.answerTime)
        + (if ao.head? = some conn then 200 else 0)
    else 0
  let p' : Player :=
    { p with
      score := if wasCorrect then p.score + earned else p.score
      correct_count := if wasCorrect then p.correct_count + 1 else p.correct_count
      answers := p.answers ++
        [{ question := q.question
         , picked := if 0 ≤ playerVote then q.options.getD playerVote.toNat "undefined" else "—"
         , correct := q.options.getD q.correct "undefined"
         , right := wasCorrect }] }
  (p', earned)

/-- `hostReveal()` (lines 1597-1659): stop the timer, lock, and for every
live player compute and apply the earned points, filling `lastEarned`.
(`QUESTIONS[currentQ]` is always in range when a question is live; the
out-of-range branch would throw in JS and is never reached.) -/
def hostReveal (qs : List Question) (s : HostState) : HostState :=
  let s1 := { s with answersLocked := true }
  match qs.get? s.currentQ with
  | none => s1
  | some q =>
      { s1 with
        players := s.players.map
          (fun cp => (cp.1, (revealPlayer q s.answerOrder s.votes cp.1 cp.2).1))
        lastEarned := s.players.map
          (fun cp => (cp.1, (revealPlayer q s.answerOrder s.votes cp.1 cp.2).2)) }

/-- `const HALFTIME_AFTER = Math.floor(QUESTIONS.length / 2);` -/
def HALFTIME_AFTER (qs : List Question) : Nat := qs.length / 2

/-- The three screens `hostNextQuestion` can land on. -/
inductive Phase where
  | question
  | halftime
  | final
  deriving Repr, DecidableEq

/-- `hostNextQuestion()` (lines 1944-1954): increment the cursor; final
scoreboard when no questions remain; the one-time halftime checkpoint when
the cursor just reached `HALFTIME_AFTER`; otherwise send the next question. -/
def hostNextQuestion (qs : List Question) (s : HostState) : Phase × HostState :=
  let s1 := { s with currentQ := s.currentQ + 1 }
  if qs.length ≤ s1.currentQ then (Phase.final, s1)
  else if s1.currentQ = HALFTIME_AFTER qs ∧ s.halftimeShown = false then
    (Phase.halftime, { s1 with halftimeShown := true })
  else (Phase.question, hostSendQuestion s1)

/-- Stable insertion of a player into a list sorted by score descending,
reproducing `Array.prototype.sort` with comparator `(a, b) => b.score - a.score`
(stable in JS, ties keep registry order). -/
def insertDesc (p : Player) : List Player → List Player
  | [] => [p]
  | q :: rest => if q.score < p.score then p :: q :: rest else q :: insertDesc p rest

/-- `Object.values(players).sort((a, b) => b.score - a.score)`. -/
def sortDesc : List Player → List Player
  | [] => []
  | p :: rest => insertDesc p (sortDesc rest)

/-- One row of the halftime standings broadcast
(`{ name, score, correct }` in `showHalftime`). -/
structure ScoreEntry where
  name : String
  score : Nat
  correct : Nat
  deriving Repr, DecidableEq

/-- One row of the final scoreboard broadcast
(`{ name, score, correct, answers }` in `showFinalScoreboard`). -/
structure FinalEntry where
  name : String
  score : Nat
  correct : Nat
  answers : List AnswerRec
  deriving Repr, DecidableEq

/-- The standings snapshot built by `showHalftime()` (lines 1956-1976):
live registry values only, sorted by score descending. -/
def showHalftime (s : HostState) : List ScoreEntry :=
  (sortDesc (s.players.map Prod.snd)).map
    (fun p => { name := p.name, score := p.score, correct := p.correct_count })

/-- The scoreboard built by `showFinalScoreboard()` (lines 1982-2030):
live registry values only, sorted by score descending, with each player's
answer history attached. -/
def showFinalScoreboard (s : HostState) : List FinalEntry :=
  (sortDesc (s.players.map Prod.snd)).map
    (fun p => { name := p.name, score := p.score, correct := p.correct_count
              , answers := p.answers })

/-- The numbers `updateHostVotes` displays (lines 1537-1550): total votes is
the sum of all bucket sizes, total players is the live registry size. -/
def totalVotes (s : HostState) : Nat :=
  (s.votes.map (fun b => b.2.length)).sum

/-- Live player count as displayed by `updateHostVotes`. -/
def totalPlayers (s : HostState) : Nat := s.players.length

/-- `scoreFormula` computes exactly
`Math.round(500 + 500 * (1 - Math.min(elapsed / (TIMER_DURATION * 1000), 1)))`
from `hostReveal`, evaluated in exact rational arithmetic. -/
theorem scoreFormula_eq_jsRound (e : Nat) :
    (scoreFormula e : Int) =
      jsRound (500 + 500 * (1 - min ((e : ℚ) / ((TIMER_DURATION * 1000 : ℕ) : ℚ)) 1)) := by
  unfold scoreFormula jsRound TIMER_DURATION
  by_cases h : (30 * 1000 : Nat) ≤ e
  · have h1 : (1 : ℚ) ≤ (e : ℚ) / ((30 * 1000 : ℕ) : ℚ) := by
      rw [le_div_iff₀ (by norm_num)]
      norm_num
      exact_mod_cast h
    rw [if_pos h, min_eq_right h1]
    norm_num
  · push_neg at h
    have h1 : ((e : ℚ) / ((30 * 1000 : ℕ) : ℚ)) ≤ 1 := by
      rw [div_le_one (by norm_num)]
      exact_mod_cast h.le
    rw [if_neg (by omega), min_eq_left h1]
    have key : (500 : ℚ) + 500 * (1 - (e : ℚ) / ((30 * 1000 : ℕ) : ℚ)) + 1 / 2
        = ((500 * (2 * (30 * 1000)) + (1000 * (30 * 1000 - e) + 30 * 1000) : ℕ) : ℚ)
          / ((2 * (30 * 1000) : ℕ) : ℚ) := by
      have he : ((30 * 1000 - e : ℕ) : ℚ) = 30 * 1000 - (e : ℚ) := by
        push_cast [Nat.cast_sub h.le]
        ring
      push_cast [he]
      field_simp
      ring
    have hdiv : (500 * (2 * (30 * 1000)) + (1000 * (30 * 1000 - e) + 30 * 1000))
          / (2 * (30 * 1000))
        = 500 + (1000 * (30 * 1000 - e) + 30 * 1000) / (2 * (30 * 1000)) := by
      rw [Nat.mul_comm 500, Nat.mul_add_div (by norm_num)]
    rw [key, Rat.floor_natCast_div_natCast, ← Int.natCast_div, hdiv]

/-- The host-side events that mutate the engine state: an incoming message,
a transport close, the timer lock, sending a question, the reveal, and the
advance to the next screen. -/
inductive HOp where
  | msg (conn : Nat) (m : HostMsg) (elapsedNow : Nat)
  | close (conn : Nat)
  | lock
  | sendQuestion
  | reveal
  | advance
  deriving Repr, DecidableEq

/-- Dispatch of a host-side event to the corresponding handler. -/
def applyHOp (qs : List Question) (op : HOp) (s : HostState) : HostState :=
  match op with
  | .msg conn m elapsedNow => handleHostMessage qs conn m elapsedNow s
  | .close conn => handleClose conn s
  | .lock => lockAnswers s
  | .sendQuestion => hostSendQuestion s
  | .reveal => hostReveal qs s
  | .advance => (hostNextQuestion qs s).2

/-- A sequence of host-side events applied in order. -/
def applyHOps (qs : List Question) (ops : List HOp) (s : HostState) : HostState :=
  ops.foldl (fun s op => applyHOp qs op s) s

/-- The advance loop of a session: repeatedly run `hostNextQuestion`,
recording the screen reached; halftime continues via `halftimeContinue()`
which calls `hostSendQuestion()`; the final scoreboard is terminal. -/
def advanceRun (qs : List Question) : Nat → HostState → List Phase
  | 0, _ => []
  | n + 1, s =>
      match hostNextQuestion qs s with
      | (Phase.final, _) => [Phase.final]
      | (Phase.halftime, s') => Phase.halftime :: advanceRun qs n (hostSendQuestion s')
      | (Phase.question, s') => Phase.question :: advanceRun qs n s'

section AssocLemmas

variable {α : Type} [BEq α] [LawfulBEq α] {β : Type} {γ : Type}

theorem alookup_aupdate_self (k : α) (v : β) (l : List (α × β)) :
    alookup k (aupdate k v l) = some v := by
  induction l with
  | nil => simp [aupdate, alookup]
  | cons hd tl ih =>
      obtain ⟨a, b⟩ := hd
      by_cases h : a = k
      · subst h
        simp [aupdate, alookup]
      · simp only [aupdate, beq_eq_false_iff_ne.mpr h, Bool.false_eq_true, if_false]
        simp only [alookup, beq_eq_false_iff_ne.mpr h, Bool.false_eq_true, if_false]
        exact ih

theorem alookup_aupdate_ne {k' k : α} (h : k' ≠ k) (v : β) (l : List (α × β)) :
    alookup k' (aupdate k v l) = alookup k' l := by
  have hkk : (k == k') = false := beq_eq_false_iff_ne.mpr (fun h' => h h'.symm)
  induction l with
  | nil => simp [aupdate, alookup, hkk]
  | cons hd tl ih =>
      obtain ⟨a, b⟩ := hd
      by_cases hh : a = k
      · subst hh
        simp [aupdate, alookup, hkk]
      · simp only [aupdate, beq_eq_false_iff_ne.mpr hh, Bool.false_eq_true, if_false]
        by_cases hk : a = k'
        · subst hk
          simp [alookup]
        · simp only [alookup, beq_eq_false_iff_ne.mpr hk, Bool.false_eq_true, if_false]
          exact ih

theorem alookup_aerase_ne {k' k : α} (h : k' ≠ k) (l : List (α × β)) :
    alookup k' (aerase k l) = alookup k' l := by
  induction l with
  | nil => simp [aerase, alookup]
  | cons hd tl ih =>
      obtain ⟨a, b⟩ := hd
      by_cases hh : a = k
      · subst hh
        simp only [aerase, beq_self_eq_true, if_true]
        simp only [alookup, beq_eq_false_iff_ne.mpr (fun h' : a = k' => h (h' ▸ rfl)),
          Bool.false_eq_true, if_false]
      · simp only [aerase, beq_eq_false_iff_ne.mpr hh, Bool.false_eq_true, if_false]
        by_cases hk : a = k'
        · subst hk
          simp [alookup]
        · simp only [alookup, beq_eq_false_iff_ne.mpr hk, Bool.false_eq_true, if_false]
          exact ih

theorem aerase_sublist (k : α) (l : List (α × β)) : (aerase k l).Sublist l := by
  induction l with
  | nil => simp [aerase]
  | cons hd tl ih =>
      obtain ⟨a, b⟩ := hd
      by_cases hh : a = k
      · simp only [aerase, beq_iff_eq.mpr hh, if_true]
        exact List.sublist_cons_self (a, b) tl
      · simp only [aerase, beq_eq_false_iff_ne.mpr hh, Bool.false_eq_true, if_false]
        exact ih.cons₂ (a, b)

theorem alookup_mem {k : α} {v : β} {l : List (α × β)} (h : alookup k l = some v) :
    (k, v) ∈ l := by
  induction l with
  | nil => simp [alookup] at h
  | cons hd tl ih =>
      obtain ⟨a, b⟩ := hd
      by_cases hh : a = k
      · subst hh
        simp only [alookup, beq_self_eq_true, if_true, Option.some_inj] at h
        subst h
        exact List.mem_cons_self _ _
      · simp only [alookup, beq_eq_false_iff_ne.mpr hh, Bool.false_eq_true, if_false] at h
        exact List.mem_cons_of_mem _ (ih h)

theorem alookup_aerase_self {k : α} {l : List (α × β)}
    (h : (l.map Prod.fst).Nodup) : alookup k (aerase k l) = none := by
  induction l with
  | nil => simp [aerase, alookup]
  | cons hd tl ih =>
      obtain ⟨a, b⟩ := hd
      simp only [List.map_cons, List.nodup_cons] at h
      by_cases hh : a = k
      · subst hh
        simp only [aerase, beq_self_eq_true, if_true]
        cases hx : alookup a tl with
        | none => rfl
        | some v =>
            exact absurd (List.mem_map_of_mem Prod.fst (alookup_mem hx)) h.1
      · simp only [aerase, beq_eq_false_iff_ne.mpr hh, Bool.false_eq_true, if_false]
        simp only [alookup, beq_eq_false_iff_ne.mpr hh, Bool.false_eq_true, if_false]
        exact ih h.2

theorem alookup_aerase_some {k' k : α} {v : β} {l : List (α × β)}
    (hnd : (l.map Prod.fst).Nodup) (h : alookup k' (aerase k l) = some v) :
    alookup k' l = some v := by
  by_cases hk : k' = k
  · subst hk
    rw [alookup_aerase_self hnd] at h
    exact absurd h (by simp)
  · rwa [alookup_aerase_ne hk] at h

theorem alookup_map_val (f : α → β → γ) (k : α) (l : List (α × β)) :
    alookup k (l.map (fun cp => (cp.1, f cp.1 cp.2))) = (alookup k l).map (f k) := by
  induction l with
  | nil => simp [alookup]
  | cons hd tl ih =>
      obtain ⟨a, b⟩ := hd
      by_cases hh : a = k
      · subst hh
        simp [alookup]
      · simp only [List.map_cons, alookup, beq_eq_false_iff_ne.mpr hh,
          Bool.false_eq_true, if_false]
        exact ih

end AssocLemmas

section TallyLemmas

theorem nameCount_nil (n : String) : nameCount [] n = 0 := rfl

theorem count_one (n nm : String) :
    ([nm] : List String).count n = (if nm = n then 1 else 0) := by
  by_cases h : nm = n <;> simp [List.count_cons, h]

theorem count_push (n nm : String) (ns : List String) :
    (ns ++ [nm]).count n = ns.count n + (if nm = n then 1 else 0) := by
  rw [List.count_append, count_one]

theorem nameCount_votePush (k : Nat) (nm n : String) (vs : List (Nat × List String)) :
    nameCount (votePush k nm vs) n = nameCount vs n + (if nm = n then 1 else 0) := by
  induction vs with
  | nil =>
      simp only [votePush, nameCount, List.map_cons, List.map_nil, List.sum_cons,
        List.sum_nil, count_one]
      omega
  | cons hd tl ih =>
      obtain ⟨k', ns⟩ := hd
      by_cases hk : k' = k
      · subst hk
        simp only [nameCount] at ih ⊢
        simp [votePush, count_push, count_one]
        omega
      · simp only [votePush, if_neg hk]
        by_cases hlt : k < k'
        · simp only [if_pos hlt, nameCount, List.map_cons, List.sum_cons, count_one]
          omega
        · simp only [if_neg hlt, nameCount, List.map_cons, List.sum_cons]
          simp only [nameCount] at ih
          omega

theorem nameCount_removeNameAll_ne {n nm : String} (h : n ≠ nm)
    (vs : List (Nat × List String)) :
    nameCount (removeNameAll nm vs) n = nameCount vs n := by
  induction vs with
  | nil => simp [removeNameAll, nameCount]
  | cons hd tl ih =>
      simp only [removeNameAll, List.map_cons, nameCount, List.sum_cons] at ih ⊢
      rw [List.count_erase_of_ne h hd.2]
      omega

theorem nameCount_removeNameAll_self {nm : String} {vs : List (Nat × List String)}
    (h : nameCount vs nm ≤ 1) :
    nameCount (removeNameAll nm vs) nm = 0 := by
  induction vs with
  | nil => simp [removeNameAll, nameCount]
  | cons hd tl ih =>
      simp only [removeNameAll, List.map_cons, nameCount, List.sum_cons] at h ih ⊢
      rw [List.count_erase_self]
      omega

theorem findVote_of_count_zero {nm : String} {vs : List (Nat × List String)}
    (h : nameCount vs nm = 0) : findVote vs nm = -1 := by
  have aux : ∀ (l : List (Nat × List String)) (acc : Int),
      (∀ b ∈ l, nm ∉ b.2) → l.foldl (fun acc b => if nm ∈ b.2 then (b.1 : Int) else acc) acc = acc := by
    intro l
    induction l with
    | nil => intro acc _; rfl
    | cons hd tl ih =>
        intro acc hmem
        simp only [List.foldl_cons]
        rw [if_neg (hmem hd (List.mem_cons_self hd tl))]
        exact ih acc (fun b hb => hmem b (List.mem_cons_of_mem hd hb))
  apply aux
  intro b hb hmem
  have h1 : 0 < b.2.count nm := List.count_pos_iff.mpr hmem
  have h2 : b.2.count nm ≤ nameCount vs nm := by
    simp only [nameCount]
    exact List.single_le_sum (fun x _ => Nat.zero_le x) _ (List.mem_map_of_mem _ hb)
  omega

theorem findVote_mem {vs : List (Nat × List String)} {nm : String} {k : Int}
    (h : findVote vs nm = k) (hk : k ≠ -1) : ∃ b ∈ vs, nm ∈ b.2 ∧ (b.1 : Int) = k := by
  have aux : ∀ (l : List (Nat × List String)) (acc : Int),
      l.foldl (fun acc b => if nm ∈ b.2 then (b.1 : Int) else acc) acc = k →
      (∃ b ∈ l, nm ∈ b.2 ∧ (b.1 : Int) = k) ∨ acc = k := by
    intro l
    induction l with
    | nil => intro acc h; exact Or.inr h
    | cons hd tl ih =>
        intro acc h
        simp only [List.foldl_cons] at h
        by_cases hm : nm ∈ hd.2
        · rw [if_pos hm] at h
          rcases ih _ h with h1 | h1
          · obtain ⟨b, hb, hb2⟩ := h1
            exact Or.inl ⟨b, List.mem_cons_of_mem hd hb, hb2⟩
          · exact Or.inl ⟨hd, List.mem_cons_self hd tl, hm, h1⟩
        · rw [if_neg hm] at h
          rcases ih _ h with h1 | h1
          · obtain ⟨b, hb, hb2⟩ := h1
            exact Or.inl ⟨b, List.mem_cons_of_mem hd hb, hb2⟩
          · exact Or.inr h1
  rcases aux vs (-1) h with h1 | h1
  · exact h1
  · exact absurd h1.symm hk

end TallyLemmas

section RegistryLemmas

variable {α : Type} [BEq α] [LawfulBEq α] {β : Type} {γ : Type}

theorem alookup_eq_none {k : α} {l : List (α × β)} :
    alookup k l = none ↔ k ∉ l.map Prod.fst := by
  induction l with
  | nil => simp [alookup]
  | cons hd tl ih =>
      obtain ⟨a, b⟩ := hd
      by_cases h : a = k
      · subst h
        simp [alookup]
      · simp only [alookup, beq_eq_false_iff_ne.mpr h, Bool.false_eq_true, if_false,
          List.map_cons, List.mem_cons]
        rw [ih]
        constructor
        · intro hh hc
          rcases hc with hc | hc
          · exact h hc.symm
          · exact hh hc
        · intro hh hc
          exact hh (Or.inr hc)

theorem aupdate_keys_mem {k : α} {l : List (α × β)} (h : k ∈ l.map Prod.fst) (v : β) :
    (aupdate k v l).map Prod.fst = l.map Prod.fst := by
  induction l with
  | nil => simp at h
  | cons hd tl ih =>
      obtain ⟨a, b⟩ := hd
      by_cases hh : a = k
      · subst hh
        simp [aupdate]
      · simp only [List.map_cons, List.mem_cons] at h
        rcases h with h | h
        · exact absurd h.symm hh
        · simp only [aupdate, beq_eq_false_iff_ne.mpr hh, Bool.false_eq_true, if_false,
            List.map_cons]
          rw [ih h]

theorem aupdate_keys_not_mem {k : α} {l : List (α × β)} (h : k ∉ l.map Prod.fst) (v : β) :
    (aupdate k v l).map Prod.fst = l.map Prod.fst ++ [k] := by
  induction l with
  | nil => simp [aupdate]
  | cons hd tl ih =>
      obtain ⟨a, b⟩ := hd
      simp only [List.map_cons, List.mem_cons] at h
      push_neg at h
      simp only [aupdate, beq_eq_false_iff_ne.mpr (fun hh : a = k => h.1 hh.symm),
        Bool.false_eq_true, if_false, List.map_cons, List.cons_append]
      rw [ih h.2]

theorem aupdate_map_val_eq {k : α} {v p : β} {l : List (α × β)} (f : β → γ)
    (h : alookup k l = some p) (hv : f v = f p) :
    (aupdate k v l).map (fun cp => f cp.2) = l.map (fun cp => f cp.2) := by
  induction l with
  | nil => simp [alookup] at h
  | cons hd tl ih =>
      obtain ⟨a, b⟩ := hd
      by_cases hh : a = k
      · subst hh
        simp only [alookup, beq_self_eq_true, if_true, Option.some_inj] at h
        subst h
        simp [aupdate, hv]
      · simp only [alookup, beq_eq_false_iff_ne.mpr hh, Bool.false_eq_true, if_false] at h
        simp only [aupdate, beq_eq_false_iff_ne.mpr hh, Bool.false_eq_true, if_false,
          List.map_cons]
        rw [ih h]

theorem aupdate_map_val_append {k : α} {v : β} {l : List (α × β)} (f : β → γ)
    (h : alookup k l = none) :
    (aupdate k v l).map (fun cp => f cp.2) = l.map (fun cp => f cp.2) ++ [f v] := by
  induction l with
  | nil => simp [aupdate]
  | cons hd tl ih =>
      obtain ⟨a, b⟩ := hd
      by_cases hh : a = k
      · subst hh
        simp [alookup] at h
      · simp only [alookup, beq_eq_false_iff_ne.mpr hh, Bool.false_eq_true, if_false] at h
        simp only [aupdate, beq_eq_false_iff_ne.mpr hh, Bool.false_eq_true, if_false,
          List.map_cons, List.cons_append]
        rw [ih h]

end RegistryLemmas

section NameLemmas

theorem mem_names_of_alookup {c : Nat} {p : Player} {l : List (Nat × Player)}
    (h : alookup c l = some p) : p.name ∈ l.map (fun cp => cp.2.name) :=
  List.mem_map_of_mem (fun cp => cp.2.name) (alookup_mem h)

theorem alookup_name_ne {c1 c2 : Nat} {p1 p2 : Player} {l : List (Nat × Player)}
    (hn : (l.map (fun cp => cp.2.name)).Nodup)
    (h1 : alookup c1 l = some p1) (h2 : alookup c2 l = some p2) (hc : c1 ≠ c2) :
    p1.name ≠ p2.name := by
  intro he
  have e1 := alookup_mem h1
  have e2 := alookup_mem h2
  have heq := List.inj_on_of_nodup_map hn e1 e2 he
  exact hc (congrArg Prod.fst heq)

theorem name_not_mem_aerase {c : Nat} {p : Player} {l : List (Nat × Player)}
    (hn : (l.map (fun cp => cp.2.name)).Nodup)
    (h : alookup c l = some p) :
    p.name ∉ (aerase c l).map (fun cp => cp.2.name) := by
  induction l with
  | nil => simp [alookup] at h
  | cons hd tl ih =>
      obtain ⟨a, b⟩ := hd
      simp only [List.map_cons, List.nodup_cons] at hn
      by_cases hh : a = c
      · subst hh
        simp only [alookup, beq_self_eq_true, if_true, Option.some_inj] at h
        subst h
        simp only [aerase, beq_self_eq_true, if_true]
        exact hn.1
      · simp only [alookup, beq_eq_false_iff_ne.mpr hh, Bool.false_eq_true, if_false] at h
        simp only [aerase, beq_eq_false_iff_ne.mpr hh, Bool.false_eq_true, if_false,
          List.map_cons, List.mem_cons]
        intro hmem
        rcases hmem with hmem | hmem
        · exact hn.1 (hmem ▸ mem_names_of_alookup h)
        · exact ih hn.2 h hmem

theorem names_aerase_sublist (c : Nat) (l : List (Nat × Player)) :
    ((aerase c l).map (fun cp => cp.2.name)).Sublist (l.map (fun cp => cp.2.name)) :=
  (aerase_sublist c l).map _

end NameLemmas

section RevealLemmas

theorem revealPlayer_earned (q : Question) (ao : List Nat) (vs : List (Nat × List String))
    (c : Nat) (p : Player) :
    (revealPlayer q ao vs c p).2 =
      if findVote vs p.name = (q.correct : Int)
      then scoreFormula (elapsedOf p.answerTime) + (if ao.head? = some c then 200 else 0)
      else 0 := rfl

theorem revealPlayer_score_le (q : Question) (ao : List Nat) (vs : List (Nat × List String))
    (c : Nat) (p : Player) :
    p.score ≤ ((revealPlayer q ao vs c p).1).score := by
  simp only [revealPlayer]
  split
  · omega
  · omega

theorem hostReveal_lastEarned {qs : List Question} {q : Question} {s : HostState}
    (hq : qs.get? s.currentQ = some q) (c : Nat) :
    alookup c (hostReveal qs s).lastEarned =
      (alookup c s.players).map (fun p => (revealPlayer q s.answerOrder s.votes c p).2) := by
  simp only [hostReveal, hq]
  exact alookup_map_val (fun a p => (revealPlayer q s.answerOrder s.votes a p).2) c s.players

theorem hostReveal_players {qs : List Question} {q : Question} {s : HostState}
    (hq : qs.get? s.currentQ = some q) (c : Nat) :
    alookup c (hostReveal qs s).players =
      (alookup c s.players).map (fun p => (revealPlayer q s.answerOrder s.votes c p).1) := by
  simp only [hostReveal, hq]
  exact alookup_map_val (fun a p => (revealPlayer q s.answerOrder s.votes a p).1) c s.players

theorem hostSendQuestion_players_lookup (u : HostState) (c : Nat) :
    alookup c (hostSendQuestion u).players =
      (alookup c u.players).map (fun p => { p with answered := false, answerTime := none }) := by
  simp only [hostSendQuestion]
  exact alookup_map_val (fun _ p => { p with answered := false, answerTime := none }) c u.players

theorem nameCount_eq_zero {vs : List (Nat × List String)} {nm : String}
    (hv : ∀ b ∈ vs, nm ∉ b.2) : nameCount vs nm = 0 := by
  simp only [nameCount]
  apply List.sum_eq_zero
  intro x hx
  simp only [List.mem_map] at hx
  obtain ⟨b, hb, rfl⟩ := hx
  exact List.count_eq_zero.mpr (hv b hb)

theorem aupdate_keys_nodup {α : Type} [BEq α] [LawfulBEq α] {β : Type}
    {k : α} {l : List (α × β)} (h : (l.map Prod.fst).Nodup) (v : β) :
    ((aupdate k v l).map Prod.fst).Nodup := by
  by_cases hm : k ∈ l.map Prod.fst
  · rw [aupdate_keys_mem hm]
    exact h
  · rw [aupdate_keys_not_mem hm]
    simp [List.nodup_append, h, hm]

end RevealLemmas

/-- A two-question quiz used for concrete scenario states. -/
def exQs : List Question :=
  [ { question := "q1", options := ["a", "b"], correct := 0 }
  , { question := "q2", options := ["x", "y"], correct := 1 } ]

/-- Scenario state for question 0: player 1 ("A") answers correctly at
2000 ms and is first, player 2 ("B") answers correctly at 29000 ms,
player 3 ("C") never votes. -/
def exState : HostState :=
  applyHOps exQs
    [ .msg 1 (.join "A") 0, .msg 2 (.join "B") 0, .msg 3 (.join "C") 0
    , .msg 1 (.answer 0) 2000, .msg 2 (.answer 0) 29000 ]
    (hostStartQuiz initialHostState)

/-- Scenario state: player 1 ("Z") answers the correct option in the same
millisecond the question was sent, so the recorded `answerTime` is `0`. -/
def zeroLatencyState : HostState :=
  applyHOps exQs [ .msg 1 (.join "Z") 0, .msg 1 (.answer 0) 0 ]
    (hostStartQuiz initialHostState)

/-- Claim C1, counterexample.  Player "Z" voted for the correct option and is
first in Answer Order, with a recorded response latency of 0 ms.  The claim's
formula `round(500 + 500 × (1 − min(0/budget, 1))) + 200` yields
`scoreFormula 0 + 200 = 1200`, but `hostReveal` awards only 700: the JS
expression `p.answerTime || (TIMER_DURATION * 1000)` treats the falsy recorded
latency `0` as a missing value and substitutes the full 30-second budget. -/
theorem c1_counterexample :
    alookup 1 zeroLatencyState.players =
      some { name := "Z", score := 0, answered := true, answerTime := some 0
           , correct_count := 0, answers := [] }
    ∧ zeroLatencyState.answerOrder = [1]
    ∧ alookup 1 (hostReveal exQs zeroLatencyState).lastEarned = some 700
    ∧ scoreFormula 0 + 200 = 1200
    ∧ (700 : Nat) ≠ 1200 := by decide

/-- Claim C1, amended.  For every registered player the points recorded at
reveal equal `round(500 + 500 × (1 − min(elapsed/budget, 1)))` — where
`elapsed` is the recorded response latency except that a zero or missing
latency is replaced by the full 30-second budget (earning the 500 floor) —
plus 200 exactly when the player is first in Answer Order, when they voted
for the correct option; 0 otherwise.  The second conjunct certifies that
`scoreFormula` is that rounded rational formula. -/
theorem c1_scoring (qs : List Question) (q : Question) (s : HostState)
    (hq : qs.get? s.currentQ = some q) (c : Nat) (p : Player)
    (hp : alookup c s.players = some p) :
    (alookup c (hostReveal qs s).lastEarned =
      some (if findVote s.votes p.name = (q.correct : Int)
            then scoreFormula (elapsedOf p.answerTime)
              + (if s.answerOrder.head? = some c then 200 else 0)
            else 0))
    ∧ (scoreFormula (elapsedOf p.answerTime) : Int) =
        jsRound (500 + 500 * (1 - min ((elapsedOf p.answerTime : ℚ)
          / ((TIMER_DURATION * 1000 : ℕ) : ℚ)) 1)) := by
  constructor
  · rw [hostReveal_lastEarned hq, hp]
    simp [revealPlayer_earned]
  · exact scoreFormula_eq_jsRound _

/-- Claim C1, amended, witness: in `exState` the first-correct answer at
2000 ms earns `round(500 + 500 × 28/30) + 200 = 1167`, the non-first correct
answer at 29000 ms earns 517, and the player with no vote earns 0. -/
theorem c1_scoring_witness :
    alookup 1 (hostReveal exQs exState).lastEarned = some 1167
    ∧ alookup 2 (hostReveal exQs exState).lastEarned = some 517
    ∧ alookup 3 (hostReveal exQs exState).lastEarned = some 0 := by
  refine ⟨?_, ?_, ?_⟩
  · rw [(c1_scoring exQs { question := "q1", options := ["a", "b"], correct := 0 }
      exState (by decide) 1
      { name := "A", score := 0, answered := true, answerTime := some 2000
      , correct_count := 0, answers := [] } (by decide)).1]
    decide
  · rw [(c1_scoring exQs { question := "q1", options := ["a", "b"], correct := 0 }
      exState (by decide) 2
      { name := "B", score := 0, answered := true, answerTime := some 29000
      , correct_count := 0, answers := [] } (by decide)).1]
    decide
  · rw [(c1_scoring exQs { question := "q1", options := ["a", "b"], correct := 0 }
      exState (by decide) 3
      { name := "C", score := 0, answered := false, answerTime := none
      , correct_count := 0, answers := [] } (by decide)).1]
    decide

/-- Claim C2.  At reveal, a registered player's recorded points contain the
200-point speed bonus exactly when they voted for the correct option and
their connection id sits at position 0 of Answer Order; and at most one
connection id can sit at position 0, so at most one player gets the bonus. -/
theorem c2_speed_bonus (qs : List Question) (q : Question) (s : HostState)
    (hq : qs.get? s.currentQ = some q) :
    (∀ c p, alookup c s.players = some p →
      alookup c (hostReveal qs s).lastEarned =
        some ((if findVote s.votes p.name = (q.correct : Int)
               then scoreFormula (elapsedOf p.answerTime) else 0)
          + (if findVote s.votes p.name = (q.correct : Int)
               ∧ s.answerOrder.head? = some c
             then 200 else 0)))
    ∧ (∀ c1 c2, s.answerOrder.head? = some c1 → s.answerOrder.head? = some c2 →
        c1 = c2) := by
  constructor
  · intro c p hp
    rw [hostReveal_lastEarned hq, hp]
    simp only [Option.map_some', Option.some_inj, revealPlayer_earned]
    by_cases h1 : findVote s.votes p.name = (q.correct : Int) <;>
      by_cases h2 : s.answerOrder.head? = some c <;>
        simp [h1, h2]
  · intro c1 c2 h1 h2
    rw [h1] at h2
    exact Option.some_inj.mp h2

/-- Claim C2, witness: in `exState` Answer Order is `[1, 2]`; player 1 gets
`967 + 200`, player 2 gets `517` with no bonus. -/
theorem c2_speed_bonus_witness :
    exState.answerOrder = [1, 2]
    ∧ alookup 1 (hostReveal exQs exState).lastEarned = some (967 + 200)
    ∧ alookup 2 (hostReveal exQs exState).lastEarned = some (517 + 0) := by
  refine ⟨by decide, ?_, ?_⟩
  · rw [(c2_speed_bonus exQs { question := "q1", options := ["a", "b"], correct := 0 }
      exState (by decide)).1 1
      { name := "A", score := 0, answered := true, answerTime := some 2000
      , correct_count := 0, answers := [] } (by decide)]
    decide
  · rw [(c2_speed_bonus exQs { question := "q1", options := ["a", "b"], correct := 0 }
      exState (by decide)).1 2
      { name := "B", score := 0, answered := true, answerTime := some 29000
      , correct_count := 0, answers := [] } (by decide)]
    decide

/-- Claim C6.  A registered player whose name is in no bucket of the frozen
tally at reveal time is recorded as earning 0, keeps their cumulative score
and correct-answer count unchanged, and gets exactly one answer record
appended whose picked field is the unanswered dash. -/
theorem c6_no_vote (qs : List Question) (q : Question) (s : HostState)
    (hq : qs.get? s.currentQ = some q) (c : Nat) (p : Player)
    (hp : alookup c s.players = some p)
    (hv : ∀ b ∈ s.votes, p.name ∉ b.2) :
    alookup c (hostReveal qs s).lastEarned = some 0
    ∧ alookup c (hostReveal qs s).players =
        some { p with answers := p.answers ++
          [{ question := q.question, picked := "—"
           , correct := q.options.getD q.correct "undefined", right := false }] } := by
  have hfv : findVote s.votes p.name = -1 :=
    findVote_of_count_zero (nameCount_eq_zero hv)
  have hwc : ¬(findVote s.votes p.name = (q.correct : Int)) := by
    rw [hfv]
    omega
  constructor
  · rw [hostReveal_lastEarned hq, hp]
    simp [revealPlayer_earned, hwc]
  · rw [hostReveal_players hq, hp]
    simp only [Option.map_some', Option.some_inj]
    simp [revealPlayer, hwc, hfv]

/-- Claim C6, witness: player 3 ("C") in `exState` never voted; the reveal
records 0 earned and appends one unanswered-dash record to their history. -/
theorem c6_no_vote_witness :
    alookup 3 (hostReveal exQs exState).lastEarned = some 0
    ∧ alookup 3 (hostReveal exQs exState).players =
        some { name := "C", score := 0, answered := false, answerTime := none
             , correct_count := 0
             , answers := [{ question := "q1", picked := "—", correct := "a"
                           , right := false }] } := by
  have h := c6_no_vote exQs { question := "q1", options := ["a", "b"], correct := 0 }
    exState (by decide) 3
    { name := "C", score := 0, answered := false, answerTime := none
    , correct_count := 0, answers := [] } (by decide) (by decide)
  exact ⟨h.1, h.2.trans (by decide)⟩

/-- Claim C7.  A transport close followed by a join carrying the same name
restores the exact record (score, correct count, history and all other
fields) into the live registry and empties the side-table for that name;
a join whose name is not in the side-table creates a brand-new player with
zero score. -/
theorem c7_reconnect (qs : List Question) (s : HostState) (c c' t : Nat) (p : Player)
    (hp : alookup c s.players = some p)
    (hd : (s.disconnectedPlayers.map Prod.fst).Nodup) :
    (alookup p.name (handleClose c s).disconnectedPlayers = some p)
    ∧ (alookup c'
        (handleHostMessage qs c' (.join p.name) t (handleClose c s)).players = some p)
    ∧ (alookup p.name
        (handleHostMessage qs c' (.join p.name) t (handleClose c s)).disconnectedPlayers
        = none)
    ∧ (∀ nm, alookup nm s.disconnectedPlayers = none →
        alookup c' (handleHostMessage qs c' (.join nm) t s).players =
          some { name := nm, score := 0, answered := false, answerTime := none
               , correct_count := 0, answers := [] }) := by
  have hclose : (handleClose c s).disconnectedPlayers =
      aupdate p.name p s.disconnectedPlayers := by
    simp [handleClose, hp]
  have h1 : alookup p.name (handleClose c s).disconnectedPlayers = some p := by
    rw [hclose]
    exact alookup_aupdate_self p.name p s.disconnectedPlayers
  refine ⟨h1, ?_, ?_, ?_⟩
  · simp only [handleHostMessage, h1]
    exact alookup_aupdate_self c' p _
  · simp only [handleHostMessage, h1]
    rw [hclose]
    exact alookup_aerase_self (aupdate_keys_nodup hd p)
  · intro nm hnm
    simp only [handleHostMessage, hnm]
    exact alookup_aupdate_self c' _ s.players

/-- Claim C7, witness: closing player 1 ("A") of `exState` and rejoining as
"A" on connection 9 restores the identical record with its 2000 ms answer
time, and empties the side table; a fresh join as "D" starts at score 0. -/
theorem c7_reconnect_witness :
    (alookup "A" (handleClose 1 exState).disconnectedPlayers =
      some { name := "A", score := 0, answered := true, answerTime := some 2000
           , correct_count := 0, answers := [] })
    ∧ (alookup 9 (handleHostMessage exQs 9 (.join "A") 0 (handleClose 1 exState)).players
        = some { name := "A", score := 0, answered := true, answerTime := some 2000
               , correct_count := 0, answers := [] })
    ∧ (alookup "A"
        (handleHostMessage exQs 9 (.join "A") 0 (handleClose 1 exState)).disconnectedPlayers
        = none)
    ∧ alookup 9 (handleHostMessage exQs 9 (.join "D") 0 exState).players =
        some { name := "D", score := 0, answered := false, answerTime := none
             , correct_count := 0, answers := [] } := by
  have h := c7_reconnect exQs exState 1 9 0
    { name := "A", score := 0, answered := true, answerTime := some 2000
    , correct_count := 0, answers := [] } (by decide) (by decide)
  exact ⟨h.1, h.2.1, h.2.2.1, h.2.2.2 "D" (by decide)⟩

section SortLemmas

theorem insertDesc_perm (p : Player) (l : List Player) :
    (insertDesc p l).Perm (p :: l) := by
  induction l with
  | nil => exact List.Perm.refl _
  | cons q rest ih =>
      simp only [insertDesc]
      by_cases h : q.score < p.score
      · rw [if_pos h]
      · rw [if_neg h]
        exact (ih.cons q).trans (List.Perm.swap p q rest)

theorem sortDesc_perm (l : List Player) : (sortDesc l).Perm l := by
  induction l with
  | nil => exact List.Perm.refl _
  | cons p rest ih => exact (insertDesc_perm p (sortDesc rest)).trans (ih.cons p)

end SortLemmas

/-- Claim C9.  The halftime standings and the final scoreboard list exactly
the live registry's players (as a permutation of their names); an identity
that sits only in the disconnected side-table is omitted from both
broadcasts even though its record still exists in the side-table. -/
theorem c9_snapshot_live_only (s : HostState) :
    ((showHalftime s).map ScoreEntry.name).Perm
      (s.players.map (fun cp => cp.2.name))
    ∧ ((showFinalScoreboard s).map FinalEntry.name).Perm
        (s.players.map (fun cp => cp.2.name))
    ∧ (∀ n p, alookup n s.disconnectedPlayers = some p →
        n ∉ s.players.map (fun cp => cp.2.name) →
        n ∉ (showHalftime s).map ScoreEntry.name
        ∧ n ∉ (showFinalScoreboard s).map FinalEntry.name) := by
  have hh : (showHalftime s).map ScoreEntry.name =
      (sortDesc (s.players.map Prod.snd)).map Player.name := by
    simp [showHalftime, List.map_map, Function.comp]
  have hf : (showFinalScoreboard s).map FinalEntry.name =
      (sortDesc (s.players.map Prod.snd)).map Player.name := by
    simp [showFinalScoreboard, List.map_map, Function.comp]
  have hperm : ((sortDesc (s.players.map Prod.snd)).map Player.name).Perm
      (s.players.map (fun cp => cp.2.name)) := by
    have := (sortDesc_perm (s.players.map Prod.snd)).map Player.name
    simpa [List.map_map, Function.comp] using this
  refine ⟨hh ▸ hperm, hf ▸ hperm, ?_⟩
  intro n p _ hn
  constructor
  · rw [hh]
    exact fun hmem => hn (hperm.mem_iff.mp hmem)
  · rw [hf]
    exact fun hmem => hn (hperm.mem_iff.mp hmem)

/-- Claim C9, witness: after player 1 ("A") of `exState` disconnects, "A" is
still preserved in the side-table but appears in neither the halftime
standings nor the final scoreboard, which list only "B" and "C". -/
theorem c9_snapshot_live_only_witness :
    alookup "A" (handleClose 1 exState).disconnectedPlayers =
      some { name := "A", score := 0, answered := true, answerTime := some 2000
           , correct_count := 0, answers := [] }
    ∧ "A" ∉ (showHalftime (handleClose 1 exState)).map ScoreEntry.name
    ∧ "A" ∉ (showFinalScoreboard (handleClose 1 exState)).map FinalEntry.name := by
  have h := (c9_snapshot_live_only (handleClose 1 exState)).2.2 "A"
    { name := "A", score := 0, answered := true, answerTime := some 2000
    , correct_count := 0, answers := [] } (by decide) (by decide)
  exact ⟨by decide, h.1, h.2⟩

/-- Claim C10.  A transport close leaves the vote tally, the displayed vote
totals and Answer Order untouched while removing the player's live record;
if the departed connection id still heads Answer Order and is no longer
registered, no registered player's reveal points include the 200 bonus. -/
theorem c10_disconnect_frame (qs : List Question) (q : Question) (s : HostState)
    (c : Nat) :
    ((handleClose c s).votes = s.votes
      ∧ (handleClose c s).answerOrder = s.answerOrder
      ∧ totalVotes (handleClose c s) = totalVotes s
      ∧ ((s.players.map Prod.fst).Nodup → alookup c (handleClose c s).players = none))
    ∧ (qs.get? s.currentQ = some q → s.answerOrder.head? = some c →
       alookup c s.players = none →
       ∀ c' p', alookup c' s.players = some p' →
         alookup c' (hostReveal qs s).lastEarned =
           some (if findVote s.votes p'.name = (q.correct : Int)
                 then scoreFormula (elapsedOf p'.answerTime) else 0)) := by
  constructor
  · refine ⟨?_, ?_, ?_, ?_⟩
    · cases h : alookup c s.players <;> simp [handleClose, h]
    · cases h : alookup c s.players <;> simp [handleClose, h]
    · cases h : alookup c s.players <;> simp [handleClose, totalVotes, h]
    · intro hnd
      cases h : alookup c s.players with
      | none => simp [handleClose, h]
      | some p =>
          simp only [handleClose, h]
          exact alookup_aerase_self hnd
  · intro hq hhead hcnone c' p' hp'
    have hne : ¬(s.answerOrder.head? = some c') := by
      intro hh
      rw [hhead] at hh
      have : c = c' := Option.some_inj.mp hh
      rw [← this] at hp'
      rw [hp'] at hcnone
      exact absurd hcnone (by simp)
    rw [hostReveal_lastEarned hq, hp']
    simp [revealPlayer_earned, hne]

/-- Claim C10, witness: after player 1 disconnects from `exState`, the tally
and Answer Order are unchanged with connection 1 still at position 0, vote
totals still count "A", and the remaining correct voter ("B", 29000 ms) is
paid 517 with no speed bonus at reveal. -/
theorem c10_disconnect_frame_witness :
    ((handleClose 1 exState).votes = [(0, ["A", "B"])]
      ∧ (handleClose 1 exState).answerOrder = [1, 2]
      ∧ totalVotes (handleClose 1 exState) = 2
      ∧ alookup 1 (handleClose 1 exState).players = none)
    ∧ alookup 2 (hostReveal exQs (handleClose 1 exState)).lastEarned = some 517 := by
  have h := c10_disconnect_frame exQs
    { question := "q1", options := ["a", "b"], correct := 0 }
    (handleClose 1 exState) 1
  constructor
  · exact ⟨by decide, by decide, by decide,
      (c10_disconnect_frame exQs { question := "q1", options := ["a", "b"], correct := 0 }
        exState 1).1.2.2.2 (by decide)⟩
  · rw [h.2 (by decide) (by decide) (by decide) 2
      { name := "B", score := 0, answered := true, answerTime := some 29000
      , correct_count := 0, answers := [] } (by decide)]
    decide

/-- Case form of `hostNextQuestion`: final when no questions remain, the
one-time halftime when the cursor just reached `HALFTIME_AFTER`, otherwise
the next question. -/
theorem hostNextQuestion_cases (qs : List Question) (s : HostState) :
    hostNextQuestion qs s =
      if qs.length ≤ s.currentQ + 1 then
        (Phase.final, { s with currentQ := s.currentQ + 1 })
      else if s.currentQ + 1 = HALFTIME_AFTER qs ∧ s.halftimeShown = false then
        (Phase.halftime, { s with currentQ := s.currentQ + 1, halftimeShown := true })
      else (Phase.question, hostSendQuestion { s with currentQ := s.currentQ + 1 }) := rfl

/-- Claim C5, counterexample.  The answer handler is gated only on the
`answersLocked` flag, never on the phase: in the Lobby — before the quiz has
started — the flag is still false, so an answer message from a joined player
mutates the vote tally even though the phase is not `Question`. -/
theorem c5_counterexample :
    (handleHostMessage exQs 1 (.join "A") 0 initialHostState).quizStarted = false
    ∧ (handleHostMessage exQs 1 (.join "A") 0 initialHostState).answersLocked = false
    ∧ (handleHostMessage exQs 1 (.join "A") 0 initialHostState).votes = []
    ∧ (handleHostMessage exQs 1 (.answer 0) 5
        (handleHostMessage exQs 1 (.join "A") 0 initialHostState)).votes
        = [(0, ["A"])] := by decide

/-- Claim C5, amended.  An answer message is acted on exactly when
`answersLocked` is false and the sender is registered: once locked (and the
reveal sets the lock, and the halftime/final advances keep it) an answer is
silently dropped with the whole host state — tally, Answer Order, answered
flags, scores — unchanged, so a computed reveal is never retroactively
changed; but in the Lobby before the quiz starts the flag is still clear and
a registered player's answer is processed into question 0's tally (wiped when
the first question is sent). -/
theorem c5_answer_gate (qs : List Question) (conn optIdx t : Nat) (s : HostState) :
    (s.answersLocked = true →
      handleHostMessage qs conn (.answer optIdx) t s = s)
    ∧ (alookup conn s.players = none →
      handleHostMessage qs conn (.answer optIdx) t s = s)
    ∧ (hostReveal qs s).answersLocked = true
    ∧ ((hostNextQuestion qs s).1 ≠ Phase.question →
        (hostNextQuestion qs s).2.answersLocked = s.answersLocked)
    ∧ (hostSendQuestion s).votes = [] := by
  refine ⟨?_, ?_, ?_, ?_, rfl⟩
  · intro h
    simp [handleHostMessage, h]
  · intro h
    cases hl : s.answersLocked <;> simp [handleHostMessage, h, hl]
  · cases hq : qs.get? s.currentQ <;> simp only [hostReveal, hq]
  · intro h
    rw [hostNextQuestion_cases] at h ⊢
    by_cases h1 : qs.length ≤ s.currentQ + 1
    · rw [if_pos h1]
    · by_cases h2 : s.currentQ + 1 = HALFTIME_AFTER qs ∧ s.halftimeShown = false
      · rw [if_neg h1, if_pos h2]
      · rw [if_neg h1, if_neg h2] at h
        exact absurd rfl h

/-- Claim C5, amended, witness: locking `exState` makes a late answer from
player 3 a strict no-op, as is an answer from an unregistered connection. -/
theorem c5_answer_gate_witness :
    handleHostMessage exQs 3 (.answer 1) 29999 (lockAnswers exState) = lockAnswers exState
    ∧ handleHostMessage exQs 77 (.answer 0) 5 exState = exState
    ∧ (hostReveal exQs exState).answersLocked = true := by
  refine ⟨?_, ?_, ?_⟩
  · exact (c5_answer_gate exQs 3 1 29999 (lockAnswers exState)).1 (by decide)
  · exact (c5_answer_gate exQs 77 0 5 exState).2.1 (by decide)
  · exact (c5_answer_gate exQs 0 0 0 exState).2.2.1

section AnswerCases

theorem handleAnswer_locked {s : HostState} (h : s.answersLocked = true)
    (qs : List Question) (conn optIdx t : Nat) :
    handleHostMessage qs conn (.answer optIdx) t s = s := by
  simp [handleHostMessage, h]

theorem handleAnswer_unregistered {s : HostState} {conn : Nat}
    (h : s.answersLocked = false) (hx : alookup conn s.players = none)
    (qs : List Question) (optIdx t : Nat) :
    handleHostMessage qs conn (.answer optIdx) t s = s := by
  simp [handleHostMessage, h, hx]

theorem handleAnswer_registered {s : HostState} {conn : Nat} {p : Player}
    (h : s.answersLocked = false) (hx : alookup conn s.players = some p)
    (qs : List Question) (optIdx t : Nat) :
    handleHostMessage qs conn (.answer optIdx) t s =
      { s with
        players := aupdate conn { p with answered := true, answerTime := some t } s.players
        votes := votePush optIdx p.name
          (if p.answered = true then removeNameAll p.name s.votes else s.votes)
        answerOrder :=
          if (qs.get? s.currentQ).map Question.correct = some optIdx then
            (if p.answered = true then s.answerOrder.filter (fun i => i ≠ conn)
             else s.answerOrder) ++ [conn]
          else
            (if p.answered = true then s.answerOrder.filter (fun i => i ≠ conn)
             else s.answerOrder) } := by
  simp [handleHostMessage, h, hx]

end AnswerCases

/-- Claim C3.  No host-side operation decreases any player's cumulative
score: after any single operation, every record in the live registry either
descends from a live record with a smaller-or-equal score, was restored
verbatim from the disconnected side-table, or is a brand-new zero-score
player; and every record in the side-table either was already there or was
moved verbatim from the live registry. -/
theorem c3_score_monotone (qs : List Question) (op : HOp) (s : HostState)
    (hk : (s.players.map Prod.fst).Nodup)
    (hd : (s.disconnectedPlayers.map Prod.fst).Nodup) :
    (∀ c p', alookup c (applyHOp qs op s).players = some p' →
       (∃ p, alookup c s.players = some p ∧ p.score ≤ p'.score)
       ∨ (∃ n, alookup n s.disconnectedPlayers = some p')
       ∨ p'.score = 0)
    ∧ (∀ n p', alookup n (applyHOp qs op s).disconnectedPlayers = some p' →
       alookup n s.disconnectedPlayers = some p'
       ∨ (∃ c p, alookup c s.players = some p ∧ p = p')) := by
  have same : ∀ u : HostState, u.players = s.players →
      u.disconnectedPlayers = s.disconnectedPlayers →
      (∀ c p', alookup c u.players = some p' →
        (∃ p, alookup c s.players = some p ∧ p.score ≤ p'.score)
        ∨ (∃ n, alookup n s.disconnectedPlayers = some p')
        ∨ p'.score = 0)
      ∧ (∀ n p', alookup n u.disconnectedPlayers = some p' →
        alookup n s.disconnectedPlayers = some p'
        ∨ (∃ c p, alookup c s.players = some p ∧ p = p')) := by
    intro u hup hud
    constructor
    · intro c p' hp'
      rw [hup] at hp'
      exact Or.inl ⟨p', hp', le_refl _⟩
    · intro n p' hp'
      rw [hud] at hp'
      exact Or.inl hp'
  cases op with
  | lock => exact same (lockAnswers s) rfl rfl
  | sendQuestion =>
      constructor
      · intro c p' hp'
        rw [show (applyHOp qs .sendQuestion s) = hostSendQuestion s from rfl,
          hostSendQuestion_players_lookup] at hp'
        cases hx : alookup c s.players with
        | none => rw [hx] at hp'; exact absurd hp' (by simp)
        | some p =>
            rw [hx] at hp'
            simp only [Option.map_some', Option.some_inj] at hp'
            exact Or.inl ⟨p, rfl, by rw [← hp']⟩
      · intro n p' hp'
        exact Or.inl hp'
  | reveal =>
      constructor
      · intro c p' hp'
        cases hq : qs.get? s.currentQ with
        | none =>
            simp only [applyHOp, hostReveal, hq] at hp'
            exact Or.inl ⟨p', hp', le_refl _⟩
        | some q =>
            rw [show alookup c (applyHOp qs .reveal s).players
                = alookup c (hostReveal qs s).players from rfl,
              hostReveal_players hq] at hp'
            cases hx : alookup c s.players with
            | none => rw [hx] at hp'; exact absurd hp' (by simp)
            | some p =>
                rw [hx] at hp'
                simp only [Option.map_some', Option.some_inj] at hp'
                exact Or.inl ⟨p, rfl, hp' ▸ revealPlayer_score_le q s.answerOrder s.votes c p⟩
      · intro n p' hp'
        cases hq : qs.get? s.currentQ with
        | none =>
            simp only [applyHOp, hostReveal, hq] at hp'
            exact Or.inl hp'
        | some q =>
            simp only [applyHOp, hostReveal, hq] at hp'
            exact Or.inl hp'
  | advance =>
      rw [show applyHOp qs .advance s = (hostNextQuestion qs s).2 from rfl,
        hostNextQuestion_cases]
      by_cases h1 : qs.length ≤ s.currentQ + 1
      · rw [if_pos h1]
        exact same _ rfl rfl
      · by_cases h2 : s.currentQ + 1 = HALFTIME_AFTER qs ∧ s.halftimeShown = false
        · rw [if_neg h1, if_pos h2]
          exact same _ rfl rfl
        · rw [if_neg h1, if_neg h2]
          constructor
          · intro c p' hp'
            rw [hostSendQuestion_players_lookup] at hp'
            rw [show ({ s with currentQ := s.currentQ + 1 } : HostState).players
              = s.players from rfl] at hp'
            cases hx : alookup c s.players with
            | none => rw [hx] at hp'; exact absurd hp' (by simp)
            | some p =>
                rw [hx] at hp'
                simp only [Option.map_some', Option.some_inj] at hp'
                exact Or.inl ⟨p, rfl, by rw [← hp']⟩
          · intro n p' hp'
            exact Or.inl hp'
  | close conn =>
      cases hx : alookup conn s.players with
      | none =>
          exact same _ (by simp [applyHOp, handleClose, hx]) (by simp [applyHOp, handleClose, hx])
      | some p =>
          constructor
          · intro c p' hp'
            simp only [applyHOp, handleClose, hx] at hp'
            exact Or.inl ⟨p', alookup_aerase_some hk hp', le_refl _⟩
          · intro n p' hp'
            simp only [applyHOp, handleClose, hx] at hp'
            by_cases hn : n = p.name
            · subst hn
              rw [alookup_aupdate_self] at hp'
              exact Or.inr ⟨conn, p, hx, Option.some_inj.mp hp'⟩
            · rw [alookup_aupdate_ne hn] at hp'
              exact Or.inl hp'
  | msg conn m t =>
      cases m with
      | answer optIdx =>
          cases hl : s.answersLocked with
          | true =>
              exact same _ (by rw [show (applyHOp qs (.msg conn (.answer optIdx) t) s)
                  = handleHostMessage qs conn (.answer optIdx) t s from rfl,
                  handleAnswer_locked hl])
                (by rw [show (applyHOp qs (.msg conn (.answer optIdx) t) s)
                  = handleHostMessage qs conn (.answer optIdx) t s from rfl,
                  handleAnswer_locked hl])
          | false =>
              cases hx : alookup conn s.players with
              | none =>
                  exact same _ (by rw [show (applyHOp qs (.msg conn (.answer optIdx) t) s)
                      = handleHostMessage qs conn (.answer optIdx) t s from rfl,
                      handleAnswer_unregistered hl hx])
                    (by rw [show (applyHOp qs (.msg conn (.answer optIdx) t) s)
                      = handleHostMessage qs conn (.answer optIdx) t s from rfl,
                      handleAnswer_unregistered hl hx])
              | some p =>
                  constructor
                  · intro c p' hp'
                    rw [show (applyHOp qs (.msg conn (.answer optIdx) t) s)
                      = handleHostMessage qs conn (.answer optIdx) t s from rfl,
                      handleAnswer_registered hl hx] at hp'
                    dsimp only at hp'
                    by_cases hc : c = conn
                    · subst hc
                      rw [alookup_aupdate_self] at hp'
                      refine Or.inl ⟨p, hx, ?_⟩
                      rw [← Option.some_inj.mp hp']
                    · rw [alookup_aupdate_ne hc] at hp'
                      exact Or.inl ⟨p', hp', le_refl _⟩
                  · intro n p' hp'
                    rw [show (applyHOp qs (.msg conn (.answer optIdx) t) s)
                      = handleHostMessage qs conn (.answer optIdx) t s from rfl,
                      handleAnswer_registered hl hx] at hp'
                    exact Or.inl hp'
      | join name =>
          cases hx : alookup name s.disconnectedPlayers with
          | some p =>
              constructor
              · intro c p' hp'
                simp only [applyHOp, handleHostMessage, hx] at hp'
                by_cases hc : c = conn
                · subst hc
                  rw [alookup_aupdate_self] at hp'
                  exact Or.inr (Or.inl ⟨name, hp' ▸ hx⟩)
                · rw [alookup_aupdate_ne hc] at hp'
                  exact Or.inl ⟨p', hp', le_refl _⟩
              · intro n p' hp'
                simp only [applyHOp, handleHostMessage, hx] at hp'
                exact Or.inl (alookup_aerase_some hd hp')
          | none =>
              constructor
              · intro c p' hp'
                simp only [applyHOp, handleHostMessage, hx] at hp'
                by_cases hc : c = conn
                · subst hc
                  rw [alookup_aupdate_self] at hp'
                  exact Or.inr (Or.inr (by rw [← Option.some_inj.mp hp']))
                · rw [alookup_aupdate_ne hc] at hp'
                  exact Or.inl ⟨p', hp', le_refl _⟩
              · intro n p' hp'
                simp only [applyHOp, handleHostMessage, hx] at hp'
                exact Or.inl hp'

/-- Claim C3, witness: applying the reveal to `exState`, player 1's record
afterwards (score 1167) descends from their pre-reveal record with a
smaller-or-equal score. -/
theorem c3_score_monotone_witness :
    (∃ p, alookup 1 exState.players = some p ∧ p.score ≤ 1167)
    ∨ (∃ n, alookup n exState.disconnectedPlayers =
        some { name := "A", score := 1167, answered := true, answerTime := some 2000
             , correct_count := 1
             , answers := [{ question := "q1", picked := "a", correct := "a"
                           , right := true }] })
    ∨ ({ name := "A", score := 1167, answered := true, answerTime := some 2000
       , correct_count := 1
       , answers := [{ question := "q1", picked := "a", correct := "a"
                     , right := true }] } : Player).score = 0 := by
  exact (c3_score_monotone exQs .reveal exState (by decide) (by decide)).1 1
    { name := "A", score := 1167, answered := true, answerTime := some 2000
    , correct_count := 1
    , answers := [{ question := "q1", picked := "a", correct := "a", right := true }] }
    (by decide)

section AdvanceLemmas

theorem advanceRun_no_halftime (qs : List Question) :
    ∀ (n : Nat) (s : HostState), s.halftimeShown = true →
      Phase.halftime ∉ advanceRun qs n s := by
  intro n
  induction n with
  | zero => intro s _; simp [advanceRun]
  | succ n ih =>
      intro s h
      rw [advanceRun, hostNextQuestion_cases]
      by_cases h1 : qs.length ≤ s.currentQ + 1
      · rw [if_pos h1]
        simp
      · by_cases h2 : s.currentQ + 1 = HALFTIME_AFTER qs ∧ s.halftimeShown = false
        · exact absurd h2.2 (by rw [h]; simp)
        · rw [if_neg h1, if_neg h2]
          dsimp only
          intro hmem
          rcases List.mem_cons.mp hmem with hc | hc
          · exact absurd hc (by simp)
          · exact ih (hostSendQuestion { s with currentQ := s.currentQ + 1 }) h hc

theorem advanceRun_halftime_count (qs : List Question) :
    ∀ (n : Nat) (s : HostState), (advanceRun qs n s).count Phase.halftime ≤ 1 := by
  intro n
  induction n with
  | zero => intro s; simp [advanceRun]
  | succ n ih =>
      intro s
      rw [advanceRun, hostNextQuestion_cases]
      by_cases h1 : qs.length ≤ s.currentQ + 1
      · rw [if_pos h1]
        simp
      · by_cases h2 : s.currentQ + 1 = HALFTIME_AFTER qs ∧ s.halftimeShown = false
        · rw [if_neg h1, if_pos h2]
          dsimp only
          rw [List.count_cons_self]
          have hz : (advanceRun qs n (hostSendQuestion
              { s with currentQ := s.currentQ + 1, halftimeShown := true })).count
                Phase.halftime = 0 :=
            List.count_eq_zero_of_not_mem (advanceRun_no_halftime qs n _ rfl)
          omega
        · rw [if_neg h1, if_neg h2]
          dsimp only
          rw [List.count_cons_of_ne (by simp)]
          exact ih _

end AdvanceLemmas

/-- Claim C8.  `hostNextQuestion` reaches the halftime checkpoint exactly
when the cursor has just reached the configured halftime index, more
questions remain, and halftime has not yet been shown; it reaches the final
scoreboard exactly when no questions remain; every other advance returns to
the next question with the tally, Answer Order, lock flag and answered flags
reset; and over any whole session run the halftime checkpoint occurs at most
once. -/
theorem c8_advance (qs : List Question) (s : HostState) (n : Nat) :
    ((hostNextQuestion qs s).1 = Phase.halftime ↔
       (s.currentQ + 1 < qs.length ∧ s.currentQ + 1 = HALFTIME_AFTER qs
         ∧ s.halftimeShown = false))
    ∧ ((hostNextQuestion qs s).1 = Phase.final ↔ qs.length ≤ s.currentQ + 1)
    ∧ ((hostNextQuestion qs s).1 = Phase.question →
        ((hostNextQuestion qs s).2.votes = []
         ∧ (hostNextQuestion qs s).2.answerOrder = []
         ∧ (hostNextQuestion qs s).2.answersLocked = false
         ∧ (∀ cp ∈ (hostNextQuestion qs s).2.players, cp.2.answered = false)
         ∧ (hostNextQuestion qs s).2.currentQ = s.currentQ + 1))
    ∧ (advanceRun qs n s).count Phase.halftime ≤ 1 := by
  rw [hostNextQuestion_cases]
  refine ⟨?_, ?_, ?_, advanceRun_halftime_count qs n s⟩
  · by_cases h1 : qs.length ≤ s.currentQ + 1
    · rw [if_pos h1]
      constructor
      · intro h
        exact absurd h (by simp)
      · intro h
        omega
    · by_cases h2 : s.currentQ + 1 = HALFTIME_AFTER qs ∧ s.halftimeShown = false
      · rw [if_neg h1, if_pos h2]
        constructor
        · intro _
          exact ⟨by omega, h2.1, h2.2⟩
        · intro _
          rfl
      · rw [if_neg h1, if_neg h2]
        constructor
        · intro h
          exact absurd h (by simp)
        · intro h
          exact absurd ⟨h.2.1, h.2.2⟩ h2
  · by_cases h1 : qs.length ≤ s.currentQ + 1
    · rw [if_pos h1]
      simp [h1]
    · by_cases h2 : s.currentQ + 1 = HALFTIME_AFTER qs ∧ s.halftimeShown = false
      · rw [if_neg h1, if_pos h2]
        simp [h1]
      · rw [if_neg h1, if_neg h2]
        simp [h1]
  · by_cases h1 : qs.length ≤ s.currentQ + 1
    · rw [if_pos h1]
      intro h
      exact absurd h (by simp)
    · by_cases h2 : s.currentQ + 1 = HALFTIME_AFTER qs ∧ s.halftimeShown = false
      · rw [if_neg h1, if_pos h2]
        intro h
        exact absurd h (by simp)
      · rw [if_neg h1, if_neg h2]
        intro _
        refine ⟨rfl, rfl, rfl, ?_, rfl⟩
        intro cp hcp
        simp only [hostSendQuestion, List.mem_map] at hcp
        obtain ⟨cq, _, rfl⟩ := hcp
        rfl

/-- Claim C8, witness: with the two-question quiz, advancing from question 0
visits halftime (index 1 = ⌊2/2⌋) and then, after the second question, the
final scoreboard; the no-halftime-repeat bound holds on that run. -/
theorem c8_advance_witness :
    ((hostNextQuestion exQs (lockAnswers exState)).1 = Phase.halftime ↔
       ((lockAnswers exState).currentQ + 1 < exQs.length
         ∧ (lockAnswers exState).currentQ + 1 = HALFTIME_AFTER exQs
         ∧ (lockAnswers exState).halftimeShown = false))
    ∧ advanceRun exQs 5 (lockAnswers exState) = [Phase.halftime, Phase.final]
    ∧ (advanceRun exQs 5 (lockAnswers exState)).count Phase.halftime ≤ 1 := by
  refine ⟨(c8_advance exQs (lockAnswers exState) 5).1, by decide,
    (c8_advance exQs (lockAnswers exState) 5).2.2.2⟩

/-- Well-formedness of one host event while a question is open: join
messages carry a display name not already used by a live player and arrive
on a fresh connection id (the name-collision open issue of the spec is
excluded), and only answers, joins, closes and the lock occur mid-question. -/
def wfOp (op : HOp) (s : HostState) : Bool :=
  match op with
  | .msg conn (.join name) _ =>
      !((s.players.map (fun cp => cp.2.name)).contains name)
        && !((s.players.map Prod.fst).contains conn)
  | .msg _ (.answer _) _ => true
  | .close _ => true
  | .lock => true
  | .sendQuestion => false
  | .reveal => false
  | .advance => false

/-- Well-formedness of a sequence of mid-question host events. -/
def wfOps (qs : List Question) : List HOp → HostState → Bool
  | [], _ => true
  | op :: rest, s => wfOp op s && wfOps qs rest (applyHOp qs op s)

/-- Registry sanity of a host state: object keys are unique on both tables,
no two live players share a display name, a side-table identity is never
simultaneously live, and side-table records are keyed by their own name.
These all hold for every state the JS engine can actually build. -/
structure RegInv (s : HostState) : Prop where
  keysLive : (s.players.map Prod.fst).Nodup
  keysDisc : (s.disconnectedPlayers.map Prod.fst).Nodup
  namesLive : (s.players.map (fun cp => cp.2.name)).Nodup
  discNotLive : ∀ n ∈ s.disconnectedPlayers.map Prod.fst,
    n ∉ s.players.map (fun cp => cp.2.name)
  discKeyName : ∀ n p, alookup n s.disconnectedPlayers = some p → p.name = n

/-- The tally invariant maintained while a question is open: registry
sanity, every identity in at most one bucket, unanswered players (live or
disconnected) absent from the tally, and every tallied identity owned by a
live or disconnected record. -/
structure TallyInv (s : HostState) : Prop where
  reg : RegInv s
  countLe : ∀ n, nameCount s.votes n ≤ 1
  liveClean : ∀ c p, alookup c s.players = some p → p.answered = false →
    nameCount s.votes p.name = 0
  discClean : ∀ n p, alookup n s.disconnectedPlayers = some p → p.answered = false →
    nameCount s.votes p.name = 0
  voteOwned : ∀ n, nameCount s.votes n ≠ 0 →
    (∃ c p, alookup c s.players = some p ∧ p.name = n)
    ∨ (∃ p, alookup n s.disconnectedPlayers = some p)

theorem nameCount_flatten (vs : List (Nat × List String)) (n : String) :
    nameCount vs n = ((vs.map (fun b => b.2)).flatten).count n := by
  rw [List.count_flatten, List.map_map]
  rfl

/-- `hostSendQuestion` (re)establishes the tally invariant: the tally is
emptied and every live player's answered flag cleared. -/
theorem tallyInv_hostSendQuestion (s : HostState) (hreg : RegInv s) :
    TallyInv (hostSendQuestion s) := by
  have hkeys : ((hostSendQuestion s).players.map Prod.fst) = s.players.map Prod.fst := by
    simp [hostSendQuestion, List.map_map]
  have hnames : ((hostSendQuestion s).players.map (fun cp => cp.2.name))
      = s.players.map (fun cp => cp.2.name) := by
    simp [hostSendQuestion, List.map_map]
  refine ⟨⟨?_, ?_, ?_, ?_, ?_⟩, ?_, ?_, ?_, ?_⟩
  · rw [hkeys]; exact hreg.keysLive
  · exact hreg.keysDisc
  · rw [hnames]; exact hreg.namesLive
  · intro n hn
    rw [hnames]
    exact hreg.discNotLive n hn
  · exact hreg.discKeyName
  · intro n
    simp [hostSendQuestion, nameCount]
  · intro c p _ _
    simp [hostSendQuestion, nameCount]
  · intro n p _ _
    simp [hostSendQuestion, nameCount]
  · intro n hn
    simp [hostSendQuestion, nameCount] at hn

/-- The timer lock preserves the tally invariant. -/
theorem tallyInv_lock {s : HostState} (h : TallyInv s) : TallyInv (lockAnswers s) :=
  ⟨⟨h.reg.keysLive, h.reg.keysDisc, h.reg.namesLive, h.reg.discNotLive,
    h.reg.discKeyName⟩, h.countLe, h.liveClean, h.discClean, h.voteOwned⟩

theorem mem_keys_of_alookup {α : Type} [BEq α] [LawfulBEq α] {β : Type}
    {k : α} {v : β} {l : List (α × β)} (h : alookup k l = some v) :
    k ∈ l.map Prod.fst :=
  List.mem_map_of_mem Prod.fst (alookup_mem h)

/-- A transport close preserves the tally invariant: the departed record
moves to the side-table with votes untouched. -/
theorem tallyInv_close {s : HostState} (h : TallyInv s) (conn : Nat) :
    TallyInv (handleClose conn s) := by
  cases hx : alookup conn s.players with
  | none =>
      have he : handleClose conn s = s := by simp [handleClose, hx]
      rw [he]
      exact h
  | some p =>
      have hps : (handleClose conn s).players = aerase conn s.players := by
        simp [handleClose, hx]
      have hds : (handleClose conn s).disconnectedPlayers
          = aupdate p.name p s.disconnectedPlayers := by
        simp [handleClose, hx]
      have hvs : (handleClose conn s).votes = s.votes := by simp [handleClose, hx]
      have hpname : p.name ∈ s.players.map (fun cp => cp.2.name) := mem_names_of_alookup hx
      have hpnd : p.name ∉ s.disconnectedPlayers.map Prod.fst := by
        intro hmem
        exact (h.reg.discNotLive p.name hmem) hpname
      refine ⟨⟨?_, ?_, ?_, ?_, ?_⟩, ?_, ?_, ?_, ?_⟩
      · rw [hps]
        exact h.reg.keysLive.sublist ((aerase_sublist conn s.players).map Prod.fst)
      · rw [hds]
        exact aupdate_keys_nodup h.reg.keysDisc p
      · rw [hps]
        exact h.reg.namesLive.sublist ((aerase_sublist conn s.players).map _)
      · intro n hn
        rw [hds] at hn
        rw [hps]
        by_cases hnp : n = p.name
        · subst hnp
          exact name_not_mem_aerase h.reg.namesLive hx
        · rw [aupdate_keys_not_mem hpnd] at hn
          have hn' : n ∈ s.disconnectedPlayers.map Prod.fst := by
            rcases List.mem_append.mp hn with h1 | h1
            · exact h1
            · exact absurd (List.mem_singleton.mp h1) hnp
          intro hmem
          exact (h.reg.discNotLive n hn')
            (((aerase_sublist conn s.players).map _).subset hmem)
      · intro n q hq
        rw [hds] at hq
        by_cases hnp : n = p.name
        · subst hnp
          rw [alookup_aupdate_self] at hq
          rw [← Option.some_inj.mp hq]
        · rw [alookup_aupdate_ne hnp] at hq
          exact h.reg.discKeyName n q hq
      · intro n
        rw [hvs]
        exact h.countLe n
      · intro c q hq hqa
        rw [hps] at hq
        rw [hvs]
        exact h.liveClean c q (alookup_aerase_some h.reg.keysLive hq) hqa
      · intro n q hq hqa
        rw [hds] at hq
        rw [hvs]
        by_cases hnp : n = p.name
        · subst hnp
          rw [alookup_aupdate_self] at hq
          rw [← Option.some_inj.mp hq] at hqa ⊢
          exact h.liveClean conn p hx hqa
        · rw [alookup_aupdate_ne hnp] at hq
          exact h.discClean n q hq hqa
      · intro n hn
        rw [hvs] at hn
        rcases h.voteOwned n hn with ⟨c, q, hq, hqn⟩ | ⟨q, hq⟩
        · by_cases hcc : c = conn
          · subst hcc
            rw [hx] at hq
            have hqp : q = p := (Option.some_inj.mp hq).symm
            subst hqp
            refine Or.inr ⟨q, ?_⟩
            rw [hds, ← hqn]
            exact alookup_aupdate_self _ _ _
          · refine Or.inl ⟨c, q, ?_, hqn⟩
            rw [hps, alookup_aerase_ne hcc]
            exact hq
        · have hnp : n ≠ p.name := by
            intro hh
            exact hpnd (hh ▸ mem_keys_of_alookup hq)
          refine Or.inr ⟨q, ?_⟩
          rw [hds, alookup_aupdate_ne hnp]
          exact hq

/-- A well-formed join (fresh connection id, name not in live use) preserves
the tally invariant, whether it restores a side-table record or creates a
brand-new player. -/
theorem tallyInv_join {s : HostState} (h : TallyInv s) (qs : List Question)
    (conn : Nat) (name : String) (t : Nat)
    (hname : name ∉ s.players.map (fun cp => cp.2.name))
    (hconn : conn ∉ s.players.map Prod.fst) :
    TallyInv (handleHostMessage qs conn (.join name) t s) := by
  have hcl : alookup conn s.players = none := alookup_eq_none.mpr hconn
  cases hx : alookup name s.disconnectedPlayers with
  | some p =>
      have hpn : p.name = name := h.reg.discKeyName name p hx
      have hps : (handleHostMessage qs conn (.join name) t s).players
          = aupdate conn p s.players := by simp [handleHostMessage, hx]
      have hds : (handleHostMessage qs conn (.join name) t s).disconnectedPlayers
          = aerase name s.disconnectedPlayers := by simp [handleHostMessage, hx]
      have hvs : (handleHostMessage qs conn (.join name) t s).votes = s.votes := by
        simp [handleHostMessage, hx]
      have hnotkey : name ∉ (aerase name s.disconnectedPlayers).map Prod.fst :=
        alookup_eq_none.mp (alookup_aerase_self h.reg.keysDisc)
      refine ⟨⟨?_, ?_, ?_, ?_, ?_⟩, ?_, ?_, ?_, ?_⟩
      · rw [hps]
        exact aupdate_keys_nodup h.reg.keysLive p
      · rw [hds]
        exact h.reg.keysDisc.sublist ((aerase_sublist name s.disconnectedPlayers).map _)
      · rw [hps, aupdate_map_val_append Player.name hcl, hpn]
        simp [List.nodup_append, h.reg.namesLive, hname]
      · intro n hn
        rw [hds] at hn
        rw [hps, aupdate_map_val_append Player.name hcl, hpn]
        have hnn : n ≠ name := fun hh => hnotkey (hh ▸ hn)
        have hn' : n ∈ s.disconnectedPlayers.map Prod.fst :=
          ((aerase_sublist name s.disconnectedPlayers).map Prod.fst).subset hn
        intro hmem
        rcases List.mem_append.mp hmem with h1 | h1
        · exact (h.reg.discNotLive n hn') h1
        · exact hnn (List.mem_singleton.mp h1)
      · intro n q hq
        rw [hds] at hq
        exact h.reg.discKeyName n q (alookup_aerase_some h.reg.keysDisc hq)
      · intro n
        rw [hvs]
        exact h.countLe n
      · intro c q hq hqa
        rw [hps] at hq
        rw [hvs]
        by_cases hc : c = conn
        · subst hc
          rw [alookup_aupdate_self] at hq
          rw [← Option.some_inj.mp hq] at hqa ⊢
          exact h.discClean name p hx hqa
        · rw [alookup_aupdate_ne hc] at hq
          exact h.liveClean c q hq hqa
      · intro n q hq hqa
        rw [hds] at hq
        rw [hvs]
        exact h.discClean n q (alookup_aerase_some h.reg.keysDisc hq) hqa
      · intro n hn
        rw [hvs] at hn
        rcases h.voteOwned n hn with ⟨c, q, hq, hqn⟩ | ⟨q, hq⟩
        · have hc : c ≠ conn := by
            intro hh
            rw [hh, hcl] at hq
            exact absurd hq (by simp)
          refine Or.inl ⟨c, q, ?_, hqn⟩
          rw [hps, alookup_aupdate_ne hc]
          exact hq
        · by_cases hnn : n = name
          · subst hnn
            rw [hx] at hq
            have hqp : q = p := (Option.some_inj.mp hq).symm
            subst hqp
            refine Or.inl ⟨conn, q, ?_, hpn⟩
            rw [hps]
            exact alookup_aupdate_self _ _ _
          · refine Or.inr ⟨q, ?_⟩
            rw [hds, alookup_aerase_ne hnn]
            exact hq
  | none =>
      have hps : (handleHostMessage qs conn (.join name) t s).players
          = aupdate conn
              { name := name, score := 0, answered := false
              , answerTime := none, correct_count := 0, answers := [] } s.players := by
        simp [handleHostMessage, hx]
      have hds : (handleHostMessage qs conn (.join name) t s).disconnectedPlayers
          = s.disconnectedPlayers := by simp [handleHostMessage, hx]
      have hvs : (handleHostMessage qs conn (.join name) t s).votes = s.votes := by
        simp [handleHostMessage, hx]
      refine ⟨⟨?_, ?_, ?_, ?_, ?_⟩, ?_, ?_, ?_, ?_⟩
      · rw [hps]
        exact aupdate_keys_nodup h.reg.keysLive _
      · rw [hds]
        exact h.reg.keysDisc
      · rw [hps, aupdate_map_val_append Player.name hcl]
        simp [List.nodup_append, h.reg.namesLive, hname]
      · intro n hn
        rw [hds] at hn
        rw [hps, aupdate_map_val_append Player.name hcl]
        have hnn : n ≠ name := by
          intro hh
          subst hh
          exact (alookup_eq_none.mp hx) hn
        intro hmem
        rcases List.mem_append.mp hmem with h1 | h1
        · exact (h.reg.discNotLive n hn) h1
        · exact hnn (List.mem_singleton.mp h1)
      · intro n q hq
        rw [hds] at hq
        exact h.reg.discKeyName n q hq
      · intro n
        rw [hvs]
        exact h.countLe n
      · intro c q hq hqa
        rw [hps] at hq
        rw [hvs]
        by_cases hc : c = conn
        · subst hc
          rw [alookup_aupdate_self] at hq
          rw [← Option.some_inj.mp hq]
          by_contra hnz
          rcases h.voteOwned name (by simpa using hnz) with ⟨c', q', hq', hqn'⟩ | ⟨q', hq'⟩
          · exact hname (hqn' ▸ mem_names_of_alookup hq')
          · rw [hx] at hq'
            exact absurd hq' (by simp)
        · rw [alookup_aupdate_ne hc] at hq
          exact h.liveClean c q hq hqa
      · intro n q hq hqa
        rw [hds] at hq
        rw [hvs]
        exact h.discClean n q hq hqa
      · intro n hn
        rw [hvs] at hn
        rcases h.voteOwned n hn with ⟨c, q, hq, hqn⟩ | ⟨q, hq⟩
        · have hc : c ≠ conn := by
            intro hh
            rw [hh, hcl] at hq
            exact absurd hq (by simp)
          refine Or.inl ⟨c, q, ?_, hqn⟩
          rw [hps, alookup_aupdate_ne hc]
          exact hq
        · refine Or.inr ⟨q, ?_⟩
          rw [hds]
          exact hq

/-- Processing an answer preserves the tally invariant: a changed answer is
removed from its old bucket before the new vote is pushed, so each identity
stays in at most one bucket. -/
theorem tallyInv_answer {s : HostState} (h : TallyInv s) (qs : List Question)
    (conn optIdx t : Nat) :
    TallyInv (handleHostMessage qs conn (.answer optIdx) t s) := by
  cases hl : s.answersLocked with
  | true => rw [handleAnswer_locked hl]; exact h
  | false =>
      cases hx : alookup conn s.players with
      | none => rw [handleAnswer_unregistered hl hx]; exact h
      | some p =>
          rw [handleAnswer_registered hl hx]
          have hc1 : nameCount
              (if p.answered = true then removeNameAll p.name s.votes else s.votes)
              p.name = 0 := by
            by_cases hpa : p.answered = true
            · rw [if_pos hpa]
              exact nameCount_removeNameAll_self (h.countLe p.name)
            · rw [if_neg hpa]
              exact h.liveClean conn p hx (by simpa using hpa)
          have hcne : ∀ n, n ≠ p.name → nameCount
              (if p.answered = true then removeNameAll p.name s.votes else s.votes) n
              = nameCount s.votes n := by
            intro n hn
            by_cases hpa : p.answered = true
            · rw [if_pos hpa]
              exact nameCount_removeNameAll_ne hn _
            · rw [if_neg hpa]
          have hnames : (aupdate conn
              { p with answered := true, answerTime := some t } s.players).map
                (fun cp => cp.2.name) = s.players.map (fun cp => cp.2.name) :=
            aupdate_map_val_eq Player.name hx rfl
          refine ⟨⟨?_, ?_, ?_, ?_, ?_⟩, ?_, ?_, ?_, ?_⟩
      
          · dsimp only
            rw [aupdate_keys_mem (mem_keys_of_alookup hx)]
            exact h.reg.keysLive
          · exact h.reg.keysDisc
          · dsimp only
            rw [hnames]
            exact h.reg.namesLive
          · intro n hn
            dsimp only at hn ⊢
            rw [hnames]
            exact h.reg.discNotLive n hn
          · intro n q hq
            exact h.reg.discKeyName n q hq
          · intro n
            dsimp only
            rw [nameCount_votePush]
            by_cases hnn : p.name = n
            · rw [if_pos hnn, ← hnn, hc1]
            · rw [if_neg hnn]
              rw [hcne n (fun hh => hnn hh.symm)]
              have := h.countLe n
              omega
          · intro c q hq hqa
            dsimp only at hq ⊢
            by_cases hc : c = conn
            · subst hc
              rw [alookup_aupdate_self] at hq
              rw [← Option.some_inj.mp hq] at hqa
              simp at hqa
            · rw [alookup_aupdate_ne hc] at hq
              have hqn : q.name ≠ p.name :=
                alookup_name_ne h.reg.namesLive hq hx hc
              rw [nameCount_votePush,
                if_neg (show ¬(p.name = q.name) from fun hh => hqn hh.symm),
                hcne q.name hqn]
              exact h.liveClean c q hq hqa
          · intro n q hq hqa
            dsimp only at hq ⊢
            have hqn : q.name = n := h.reg.discKeyName n q hq
            have hnl : n ∉ s.players.map (fun cp => cp.2.name) :=
              h.reg.discNotLive n (mem_keys_of_alookup hq)
            have hnp : q.name ≠ p.name := by
              rw [hqn]
              intro hh
              exact hnl (hh ▸ mem_names_of_alookup hx)
            rw [nameCount_votePush,
              if_neg (show ¬(p.name = q.name) from fun hh => hnp hh.symm),
              hcne q.name hnp]
            exact h.discClean n q hq hqa
          · intro n hn
            dsimp only at hn ⊢
            rw [nameCount_votePush] at hn
            by_cases hnn : n = p.name
            · subst hnn
              exact Or.inl ⟨conn, { p with answered := true, answerTime := some t },
                alookup_aupdate_self _ _ _, rfl⟩
            · rw [if_neg (show ¬(p.name = n) from fun hh => hnn hh.symm),
                hcne n hnn] at hn
              simp only [Nat.add_zero] at hn
              rcases h.voteOwned n hn with ⟨c, q, hq, hqn⟩ | ⟨q, hq⟩
              · have hc : c ≠ conn := by
                  intro hh
                  subst hh
                  rw [hx] at hq
                  have : q = p := (Option.some_inj.mp hq).symm
                  exact hnn (hqn ▸ congrArg Player.name this)
                exact Or.inl ⟨c, q, by rw [alookup_aupdate_ne hc]; exact hq, hqn⟩
              · exact Or.inr ⟨q, hq⟩

/-- Any single well-formed mid-question event preserves the tally invariant. -/
theorem tallyInv_step {s : HostState} (h : TallyInv s) (qs : List Question) (op : HOp)
    (hw : wfOp op s = true) : TallyInv (applyHOp qs op s) := by
  cases op with
  | msg conn m t =>
      cases m with
      | join name =>
          have hw' : name ∉ s.players.map (fun cp => cp.2.name)
              ∧ conn ∉ s.players.map Prod.fst := by
            simpa [wfOp] using hw
          exact tallyInv_join h qs conn name t hw'.1 hw'.2
      | answer optIdx => exact tallyInv_answer h qs conn optIdx t
  | close conn => exact tallyInv_close h conn
  | lock => exact tallyInv_lock h
  | sendQuestion => simp [wfOp] at hw
  | reveal => simp [wfOp] at hw
  | advance => simp [wfOp] at hw

/-- A well-formed sequence of mid-question events preserves the invariant. -/
theorem tallyInv_ops (qs : List Question) (ops : List HOp) :
    ∀ s : HostState, TallyInv s → wfOps qs ops s = true →
      TallyInv (applyHOps qs ops s) := by
  induction ops with
  | nil => intro s h _; exact h
  | cons op rest ih =>
      intro s h hw
      rw [wfOps] at hw
      have h1 := (Bool.and_eq_true _ _).mp hw
      rw [show applyHOps qs (op :: rest) s
        = applyHOps qs rest (applyHOp qs op s) from rfl]
      exact ih _ (tallyInv_step h qs op h1.1) h1.2

/-- Two simultaneous live players that chose the same display name: the
second player's vote is keyed by the same name, so "A" lands in two buckets
at once. -/
def c4CollisionState : HostState :=
  applyHOps exQs
    [ .msg 1 (.join "A") 0, .msg 2 (.join "A") 0
    , .msg 1 (.answer 0) 5, .msg 2 (.answer 1) 7 ]
    (hostStartQuiz initialHostState)

/-- Claim C4, counterexample.  After two live players joined under the same
display name "A" and voted for different options, the identity "A" occurs in
two tally buckets at once before lock: the claimed at-most-one-bucket
invariant fails, and the sum of bucket sizes (2) exceeds the number of
distinct identities with a standing vote (1). -/
theorem c4_counterexample :
    c4CollisionState.answersLocked = false
    ∧ c4CollisionState.votes = [(0, ["A"]), (1, ["A"])]
    ∧ nameCount c4CollisionState.votes "A" = 2
    ∧ ¬ ((c4CollisionState.votes.map (fun b => b.2)).flatten.Nodup)
    ∧ (c4CollisionState.votes.map (fun b => b.2.length)).sum = 2
    ∧ ((c4CollisionState.votes.map (fun b => b.2)).flatten.dedup).length = 1 := by
  decide

/-- Claim C4, amended.  Starting from any sane registry, provided every join
during the open question carries a display name not already used by a live
player (the spec's name-collision open issue) and arrives on a fresh
connection id, then at every reachable instant before lock each identity
occurs in at most one tally bucket (the concatenation of buckets has no
duplicate), the sum of bucket sizes equals the number of distinct identities
with a standing vote, and a changed answer removes the identity from its old
bucket (and its connection id from Answer Order — re-appending it only when
the new vote is correct) before inserting the new vote. -/
theorem c4_tally_invariant (qs : List Question) (s : HostState) (ops : List HOp)
    (hreg : RegInv s) (hw : wfOps qs ops (hostSendQuestion s) = true) :
    ((((applyHOps qs ops (hostSendQuestion s)).votes.map (fun b => b.2)).flatten).Nodup)
    ∧ ((applyHOps qs ops (hostSendQuestion s)).votes.map (fun b => b.2.length)).sum
        = (((applyHOps qs ops (hostSendQuestion s)).votes.map
            (fun b => b.2)).flatten.dedup).length
    ∧ (∀ conn p optIdx t,
        (applyHOps qs ops (hostSendQuestion s)).answersLocked = false →
        alookup conn (applyHOps qs ops (hostSendQuestion s)).players = some p →
        p.answered = true →
        (handleHostMessage qs conn (.answer optIdx) t
            (applyHOps qs ops (hostSendQuestion s))).votes
          = votePush optIdx p.name
              (removeNameAll p.name (applyHOps qs ops (hostSendQuestion s)).votes)
        ∧ (handleHostMessage qs conn (.answer optIdx) t
            (applyHOps qs ops (hostSendQuestion s))).answerOrder
          = (if (qs.get? (applyHOps qs ops (hostSendQuestion s)).currentQ).map
                Question.correct = some optIdx
             then ((applyHOps qs ops (hostSendQuestion s)).answerOrder.filter
                (fun i => i ≠ conn)) ++ [conn]
             else (applyHOps qs ops (hostSendQuestion s)).answerOrder.filter
                (fun i => i ≠ conn))) := by
  have hI := tallyInv_ops qs ops (hostSendQuestion s)
    (tallyInv_hostSendQuestion s hreg) hw
  have hnodup : (((applyHOps qs ops (hostSendQuestion s)).votes.map
      (fun b => b.2)).flatten).Nodup := by
    rw [List.nodup_iff_count_le_one]
    intro a
    rw [← nameCount_flatten]
    exact hI.countLe a
  refine ⟨hnodup, ?_, ?_⟩
  · calc ((applyHOps qs ops (hostSendQuestion s)).votes.map (fun b => b.2.length)).sum
        = (((applyHOps qs ops (hostSendQuestion s)).votes.map
            (fun b => b.2)).map List.length).sum := by rw [List.map_map]; rfl
      _ = (((applyHOps qs ops (hostSendQuestion s)).votes.map
            (fun b => b.2)).flatten).length := (List.length_flatten _).symm
      _ = (((applyHOps qs ops (hostSendQuestion s)).votes.map
            (fun b => b.2)).flatten.dedup).length := by
          rw [List.dedup_eq_self.mpr hnodup]
  · intro conn p optIdx t hl hp hpa
    constructor
    · rw [handleAnswer_registered hl hp]
      dsimp only
      rw [if_pos hpa]
    · rw [handleAnswer_registered hl hp]
      dsimp only
      simp only [hpa, if_true]

/-- The mid-question event sequence used as a concrete well-formed run:
two distinct players join, vote, one changes their vote, one disconnects,
then the timer locks. -/
def c4ops : List HOp :=
  [ .msg 1 (.join "A") 0, .msg 2 (.join "B") 0
  , .msg 1 (.answer 0) 5, .msg 2 (.answer 0) 7, .msg 1 (.answer 1) 9
  , .close 2, .lock ]

/-- Claim C4, amended, witness: running `c4ops` from a fresh question, the
flattened tally has no duplicate identity and the sum of bucket sizes equals
the number of distinct tallied identities. -/
theorem c4_tally_invariant_witness :
    ((((applyHOps exQs c4ops (hostSendQuestion initialHostState)).votes.map
        (fun b => b.2)).flatten).Nodup)
    ∧ ((applyHOps exQs c4ops (hostSendQuestion initialHostState)).votes.map
        (fun b => b.2.length)).sum
      = (((applyHOps exQs c4ops (hostSendQuestion initialHostState)).votes.map
          (fun b => b.2)).flatten.dedup).length := by
  have h := c4_tally_invariant exQs initialHostState c4ops
    ⟨by decide, by decide, by decide, by decide,
     fun n p hq => by simp [alookup] at hq⟩
    (by decide)
  exact ⟨h.1, h.2.1⟩
